import Mathlib

/-!
Verification of the Terraform dynamic-inventory script
(`ansible/inventory/dynamic.py`).

The script is embedded shallowly:

* JSON values are the inductive type `Json`; Python dictionaries are
  insertion-ordered association lists (`Obj`), exactly as Python 3 dicts
  behave (update-in-place keeps the position, fresh keys append at the end).
* Dynamic-typing failures of the Python code (`KeyError`, `TypeError`,
  `AttributeError`, a failing `json.loads`) are modelled with `Except Unit`:
  `.error ()` means the script raises and produces no inventory.
* `json.loads` applied to a string-encoded designated entry is an external
  library call; it is a parameter `loads : String → Option Json`
  (`none` = the string is not valid JSON, so the call raises).
* The snapshot returned by `terraform output -json` (method
  `get_terraform_output`) is an external subprocess result; it enters the
  embedding as the parameter `tf : Obj`.  An empty mapping models both
  failure branches of `get_terraform_output` (they return `{}`).
* The mutable `self.inventory` of class `TerraformInventory` is threaded
  explicitly: each method takes the current inventory object and returns
  the new one.
-/

/-- JSON values (numbers restricted to integers, which covers every value
the script manipulates). -/
inductive Json where
  | null : Json
  | bool : Bool → Json
  | num : Int → Json
  | str : String → Json
  | arr : List Json → Json
  | obj : List (String × Json) → Json
deriving Repr

/-- A Python dict with string keys: insertion-ordered association list. -/
abbrev Obj := List (String × Json)

/-- Python `d[k]` lookup on a dict (first matching key). -/
def dictGet? (d : Obj) (k : String) : Option Json :=
  match d with
  | [] => none
  | (k', v) :: rest => if k' = k then some v else dictGet? rest k

/-- Python `d.get(k, dft)`. -/
def dictGetD (d : Obj) (k : String) (dft : Json) : Json :=
  (dictGet? d k).getD dft

/-- Python `k in d` for a dict. -/
def dictContains (d : Obj) (k : String) : Bool :=
  (dictGet? d k).isSome

/-- Python `d[k] = v`: update the first occurrence in place, else append. -/
def dictSet (d : Obj) (k : String) (v : Json) : Obj :=
  match d with
  | [] => [(k, v)]
  | (k', v') :: rest => if k' = k then (k', v) :: rest else (k', v') :: dictSet rest k v

/-- The keys of a dict, in order. -/
def dictKeys (d : Obj) : List String :=
  d.map Prod.fst

/-- Python truthiness (`if x:`) of a JSON value. -/
def pyTruthy : Json → Bool
  | Json.null => false
  | Json.bool b => b
  | Json.num n => n != 0
  | Json.str s => !s.isEmpty
  | Json.arr xs => !xs.isEmpty
  | Json.obj kvs => !kvs.isEmpty

/-- Python iteration (`enumerate(x)`, `len(x)`): lists yield their elements,
strings their characters, dicts their keys; other values raise `TypeError`. -/
def pyIter : Json → Except Unit (List Json)
  | Json.arr xs => Except.ok xs
  | Json.str s => Except.ok (s.data.map (fun c => Json.str (String.mk [c])))
  | Json.obj kvs => Except.ok (kvs.map (fun kv => Json.str kv.1))
  | _ => Except.error ()

/-- Python subscript `x[k]` with a string key: raises unless `x` is a dict
containing `k`. -/
def pySubscript (j : Json) (k : String) : Except Unit Json :=
  match j with
  | Json.obj o =>
    match dictGet? o k with
    | some v => Except.ok v
    | none => Except.error ()
  | _ => Except.error ()

/-- Substring test on character lists (used for Python `k in s` on strings). -/
def charsContain (hay needle : List Char) : Bool :=
  hay.tails.any (fun t => needle.isPrefixOf t)

/-- Python `k in x`: key test for dicts, membership for lists, substring test
for strings; raises `TypeError` otherwise. -/
def pyContains (j : Json) (k : String) : Except Unit Bool :=
  match j with
  | Json.obj o => Except.ok (dictContains o k)
  | Json.arr xs => Except.ok (xs.any (fun e => match e with | Json.str s => s == k | _ => false))
  | Json.str s => Except.ok (charsContain s.data k.data)
  | _ => Except.error ()

/-- Python `x.keys()`: raises unless `x` is a dict. -/
def pyKeys : Json → Except Unit (List String)
  | Json.obj o => Except.ok (o.map Prod.fst)
  | _ => Except.error ()

/-- Python `x.items()`: raises unless `x` is a dict. -/
def pyItems : Json → Except Unit Obj
  | Json.obj o => Except.ok o
  | _ => Except.error ()

/-- The `isinstance(x, str)` / `json.loads(x)` step of
`parse_ansible_inventory` (line 47-48): a string value is decoded by the
opaque parameter `loads`; any other value passes through. -/
def pyDecode (loads : String → Option Json) : Json → Except Unit Json
  | Json.str s =>
    match loads s with
    | some j => Except.ok j
    | none => Except.error ()
  | j => Except.ok j

/-- The substring of `s` before its first colon (the whole of `s` when no
colon occurs): `s.split(':')[0]`. -/
def splitHead (s : String) : String :=
  String.mk (s.data.takeWhile (fun c => c != ':'))

/-- Python `s.split(':')[0]` (line 157): raises unless the value is a
string. -/
def pySplitHead (j : Json) : Except Unit String :=
  match j with
  | Json.str s => Except.ok (splitHead s)
  | _ => Except.error ()

/-- `tf_outputs.get(name, {}).get('value', dft)` (lines 111, 129, 147, 158,
159): absent entry gives the default; an entry that is not a dict raises
`AttributeError` on `.get`. -/
def getValue (tf : Obj) (name : String) (dft : Json) : Except Unit Json :=
  match dictGet? tf name with
  | none => Except.ok dft
  | some (Json.obj o) => Except.ok (dictGetD o "value" dft)
  | some _ => Except.error ()

/-- `tf_outputs.get('infrastructure_info', {}).get('value', {}).get(field, dft)`
(lines 165, 167). -/
def infraGet (tf : Obj) (field : String) (dft : String) : Except Unit Json :=
  match dictGet? tf "infrastructure_info" with
  | none => Except.ok (Json.str dft)
  | some (Json.obj o) =>
    match dictGetD o "value" (Json.obj []) with
    | Json.obj v => Except.ok (dictGetD v field (Json.str dft))
    | _ => Except.error ()
  | some _ => Except.error ()

/-- `self.inventory` as set up by `TerraformInventory.__init__`
(lines 15-20). -/
def initInventory : Obj :=
  [("_meta", Json.obj [("hostvars", Json.obj [])])]

/-- `self.inventory['_meta']['hostvars'][host] = v` (lines 67, 82, 95, 123,
141, 156): raises unless `_meta` and `hostvars` are present dicts. -/
def setHostvar (s : Obj) (h : String) (v : Json) : Except Unit Obj :=
  match dictGet? s "_meta" with
  | some (Json.obj m) =>
    match dictGet? m "hostvars" with
    | some (Json.obj hv) =>
      Except.ok (dictSet s "_meta" (Json.obj (dictSet m "hostvars" (Json.obj (dictSet hv h v)))))
    | _ => Except.error ()
  | some _ => Except.error ()
  | none => Except.error ()

/-- One of the three identical group blocks of `parse_ansible_inventory`
(lines 54-95), parameterised by group name and its fixed `vars` mapping:
`if name in children and 'hosts' in children[name]:` build the group entry
from the host keys, then copy each host's variable mapping into
`_meta.hostvars`. -/
def processGroup (name : String) (gvars : Obj) (children : Json) (inv : Obj) :
    Except Unit Obj := do
  let b1 ← pyContains children name
  if b1 then do
    let grp ← pySubscript children name
    let b2 ← pyContains grp "hosts"
    if b2 then do
      let hostsJ ← pySubscript grp "hosts"
      let ks ← pyKeys hostsJ
      let inv := dictSet inv name
        (Json.obj [("hosts", Json.arr (ks.map Json.str)), ("vars", Json.obj gvars)])
      let items ← pyItems hostsJ
      items.foldlM (fun inv hv => setHostvar inv hv.1 hv.2) inv
    else pure inv
  else pure inv

/-- Fixed `vars` of the `webservers` group on the preferred path
(lines 58-62). -/
def webserversVarsPre : Obj :=
  [("ansible_user", Json.str "ubuntu"),
   ("ansible_ssh_private_key_file", Json.str "~/.ssh/id_rsa"),
   ("server_type", Json.str "webserver")]

/-- Fixed `vars` of the `appservers` group on the preferred path
(lines 73-77). -/
def appserversVarsPre : Obj :=
  [("ansible_user", Json.str "ubuntu"),
   ("ansible_ssh_private_key_file", Json.str "~/.ssh/id_rsa"),
   ("server_type", Json.str "appserver")]

/-- Fixed `vars` of the `databases` group (lines 88-90 and 151-153). -/
def databasesVars : Obj :=
  [("server_type", Json.str "database")]

/-- `TerraformInventory._parse_individual_outputs` (lines 107-169), the
fallback path. -/
def parse_individual_outputs (tf : Obj) (inv : Obj) : Except Unit Obj := do
  let webIps ← getValue tf "web_instance_public_ips" (Json.arr [])
  let inv ←
    if pyTruthy webIps then do
      let ips ← pyIter webIps
      let inv := dictSet inv "webservers"
        (Json.obj [("hosts", Json.arr ((List.range ips.length).map
            (fun i => Json.str ("web-" ++ toString (i+1))))),
          ("vars", Json.obj [("ansible_user", Json.str "ubuntu"),
            ("server_type", Json.str "webserver")])])
      ips.enum.foldlM (fun inv p => setHostvar inv ("web-" ++ toString (p.1+1))
        (Json.obj [("ansible_host", p.2), ("ansible_user", Json.str "ubuntu")])) inv
    else pure inv
  let appIps ← getValue tf "app_instance_private_ips" (Json.arr [])
  let inv ←
    if pyTruthy appIps then do
      let ips ← pyIter appIps
      let inv := dictSet inv "appservers"
        (Json.obj [("hosts", Json.arr ((List.range ips.length).map
            (fun i => Json.str ("app-" ++ toString (i+1))))),
          ("vars", Json.obj [("ansible_user", Json.str "ubuntu"),
            ("server_type", Json.str "appserver")])])
      ips.enum.foldlM (fun inv p => setHostvar inv ("app-" ++ toString (p.1+1))
        (Json.obj [("ansible_host", p.2), ("ansible_user", Json.str "ubuntu")])) inv
    else pure inv
  let dbEndpoint ← getValue tf "database_endpoint" Json.null
  let inv ←
    if pyTruthy dbEndpoint then do
      let inv := dictSet inv "databases"
        (Json.obj [("hosts", Json.arr [Json.str "database"]),
          ("vars", Json.obj databasesVars)])
      let hostAddr ← pySplitHead dbEndpoint
      let engine ← getValue tf "database_engine" (Json.str "postgres")
      let port ← getValue tf "database_port" (Json.num 5432)
      setHostvar inv "database"
        (Json.obj [("ansible_host", Json.str hostAddr),
          ("db_engine", engine), ("db_port", port)])
    else pure inv
  let env ← infraGet tf "environment" "unknown"
  let region ← infraGet tf "region" "us-west-2"
  pure (dictSet inv "all"
    (Json.obj [("vars", Json.obj [("environment", env),
      ("project_name", Json.str "iac-solution"), ("aws_region", region)])]))

/-- `TerraformInventory.parse_ansible_inventory` (lines 41-105).  The
condition of line 51 (`'all' in inventory_data and 'children' in
inventory_data['all']`) is evaluated left to right with short-circuiting,
exactly as Python does; `inventory_data['all']` is a pure expression, so it
is computed once and reused for line 98. -/
def parse_ansible_inventory (loads : String → Option Json) (tf : Obj) (inv : Obj) :
    Except Unit Obj :=
  match dictGet? tf "ansible_inventory" with
  | some entry => do
    let rawData ← pySubscript entry "value"
    let inventoryData ← pyDecode loads rawData
    let b1 ← pyContains inventoryData "all"
    if b1 then do
      let allv ← pySubscript inventoryData "all"
      let b2 ← pyContains allv "children"
      if b2 then do
        let children ← pySubscript allv "children"
        let inv ← processGroup "webservers" webserversVarsPre children inv
        let inv ← processGroup "appservers" appserversVarsPre children inv
        let inv ← processGroup "databases" databasesVars children inv
        let b3 ← pyContains allv "vars"
        if b3 then do
          let v ← pySubscript allv "vars"
          pure (dictSet inv "all" (Json.obj [("vars", v)]))
        else pure inv
      else pure inv
    else pure inv
  | none => parse_individual_outputs tf inv

/-- The degraded document of `get_inventory`'s else branch (lines 180-188). -/
def emptyInventory : Obj :=
  [("all", Json.obj [("hosts", Json.arr []), ("vars", Json.obj [])]),
   ("_meta", Json.obj [("hostvars", Json.obj [])])]

/-- `TerraformInventory.get_inventory` (lines 171-190).  The snapshot `tf`
stands for the result of `get_terraform_output`; `if tf_outputs:` is dict
truthiness, i.e. non-emptiness. -/
def get_inventory (loads : String → Option Json) (tf : Obj) (inv : Obj) :
    Except Unit Obj :=
  if tf.isEmpty then Except.ok emptyInventory
  else parse_ansible_inventory loads tf inv

/-- `TerraformInventory.get_host` (lines 192-195):
`self.get_inventory().get('_meta', {}).get('hostvars', {}).get(hostname, {})`.
A `.get` on a non-dict raises `AttributeError`. -/
def get_host (loads : String → Option Json) (tf : Obj) (inv : Obj)
    (hostname : String) : Except Unit Json := do
  let i ← get_inventory loads tf inv
  match dictGetD i "_meta" (Json.obj []) with
  | Json.obj mo =>
    match dictGetD mo "hostvars" (Json.obj []) with
    | Json.obj hvo => pure (dictGetD hvo hostname (Json.obj []))
    | _ => Except.error ()
  | _ => Except.error ()

/-- Observation: the `_meta.hostvars` mapping of an inventory object (empty
if the structure is missing). -/
def metaOf (s : Obj) : Obj :=
  match dictGet? s "_meta" with
  | some (Json.obj m) => m
  | _ => []

/-- Observation: the hostvars dict of an inventory object. -/
def hostvarsOf (s : Obj) : Obj :=
  match dictGet? (metaOf s) "hostvars" with
  | some (Json.obj hv) => hv
  | _ => []

/-- Observation: the host names of group `g` in an inventory object. -/
def groupHostNames (s : Obj) (g : String) : List String :=
  match dictGet? s g with
  | some (Json.obj go) =>
    match dictGet? go "hosts" with
    | some (Json.arr hs) =>
      hs.filterMap (fun j => match j with | Json.str n => some n | _ => none)
    | _ => []
  | _ => []

/-- Well-formedness of the `_meta` scaffolding that `__init__` installs. -/
def MetaWF (s : Obj) : Prop :=
  ∃ m hv, dictGet? s "_meta" = some (Json.obj m) ∧
    dictGet? m "hostvars" = some (Json.obj hv)

/-! ### Association-list (Python dict) lemmas -/

@[simp] theorem dictKeys_nil : dictKeys [] = [] := rfl

@[simp] theorem dictKeys_cons (k : String) (v : Json) (d : Obj) :
    dictKeys ((k, v) :: d) = k :: dictKeys d := rfl

theorem dictGet?_dictSet_self (d : Obj) (k : String) (v : Json) :
    dictGet? (dictSet d k v) k = some v := by
  induction d with
  | nil => simp [dictSet, dictGet?]
  | cons p rest ih =>
    obtain ⟨k', v'⟩ := p
    by_cases h : k' = k
    · simp [dictSet, dictGet?, h]
    · simp [dictSet, dictGet?, h, ih]

theorem dictGet?_dictSet_ne (d : Obj) {k k' : String} (v : Json) (h : k' ≠ k) :
    dictGet? (dictSet d k v) k' = dictGet? d k' := by
  induction d with
  | nil =>
    simp only [dictSet, dictGet?]
    rw [if_neg (fun hh => h hh.symm)]
  | cons p rest ih =>
    obtain ⟨k₁, v₁⟩ := p
    by_cases hk : k₁ = k
    · subst hk
      simp only [dictSet, if_pos rfl, dictGet?]
      rw [if_neg (fun hh => h hh.symm), if_neg (fun hh => h hh.symm)]
    · simp only [dictSet, if_neg hk, dictGet?]
      by_cases hk' : k₁ = k'
      · rw [if_pos hk', if_pos hk']
      · rw [if_neg hk', if_neg hk', ih]

theorem dictSet_absorb {d : Obj} {k : String} {v : Json}
    (h : dictGet? d k = some v) : dictSet d k v = d := by
  induction d with
  | nil => simp [dictGet?] at h
  | cons p rest ih =>
    obtain ⟨k₁, v₁⟩ := p
    by_cases hk : k₁ = k
    · rw [dictGet?, if_pos hk] at h
      cases h
      simp [dictSet, hk]
    · rw [dictGet?, if_neg hk] at h
      simp [dictSet, hk, ih h]

theorem dictSet_dictSet_same (d : Obj) (k : String) (v w : Json) :
    dictSet (dictSet d k v) k w = dictSet d k w := by
  induction d with
  | nil => simp [dictSet]
  | cons p rest ih =>
    obtain ⟨k₁, v₁⟩ := p
    by_cases hk : k₁ = k
    · simp [dictSet, hk]
    · simp [dictSet, hk, ih]

theorem dictSet_comm_mem (d : Obj) {k₁ k₂ : String} (v₁ v₂ : Json)
    (h : k₁ ≠ k₂) (hmem : k₁ ∈ dictKeys d) :
    dictSet (dictSet d k₁ v₁) k₂ v₂ = dictSet (dictSet d k₂ v₂) k₁ v₁ := by
  induction d with
  | nil => simp at hmem
  | cons p rest ih =>
    obtain ⟨k', v'⟩ := p
    by_cases h1 : k' = k₁
    · subst h1
      rw [dictSet, if_pos rfl, dictSet, if_neg (fun hh => h hh), dictSet,
        if_neg (fun hh => h hh), dictSet, if_pos rfl]
    · rw [dictKeys_cons, List.mem_cons] at hmem
      rcases hmem with hmem | hmem
      · exact absurd hmem.symm h1
      · by_cases h2 : k' = k₂
        · subst h2
          rw [dictSet, if_neg h1, dictSet, if_pos rfl, dictSet, if_pos rfl,
            dictSet, if_neg h1]
        · rw [dictSet, if_neg h1, dictSet, if_neg h2, dictSet, if_neg h2,
            dictSet, if_neg h1, ih hmem]

theorem dictGet?_isSome_iff_mem {d : Obj} {k : String} :
    (dictGet? d k).isSome = true ↔ k ∈ dictKeys d := by
  induction d with
  | nil => simp [dictGet?]
  | cons p rest ih =>
    obtain ⟨k₁, v₁⟩ := p
    by_cases hk : k₁ = k
    · subst hk
      simp [dictGet?]
    · rw [dictGet?, if_neg hk, dictKeys_cons, List.mem_cons, ih]
      constructor
      · exact fun hm => Or.inr hm
      · rintro (hm | hm)
        · exact absurd hm.symm hk
        · exact hm

theorem dictKeys_dictSet_mem {d : Obj} {k : String} (v : Json)
    (h : k ∈ dictKeys d) : dictKeys (dictSet d k v) = dictKeys d := by
  induction d with
  | nil => simp at h
  | cons p rest ih =>
    obtain ⟨k₁, v₁⟩ := p
    by_cases hk : k₁ = k
    · rw [dictSet, if_pos hk]
      simp
    · rw [dictKeys_cons, List.mem_cons] at h
      rcases h with h | h
      · exact absurd h.symm hk
      · rw [dictSet, if_neg hk, dictKeys_cons, dictKeys_cons, ih h]

theorem dictKeys_dictSet_not_mem {d : Obj} {k : String} (v : Json)
    (h : k ∉ dictKeys d) : dictKeys (dictSet d k v) = dictKeys d ++ [k] := by
  induction d with
  | nil => simp [dictSet]
  | cons p rest ih =>
    obtain ⟨k₁, v₁⟩ := p
    rw [dictKeys_cons, List.mem_cons] at h
    push_neg at h
    rw [dictSet, if_neg (fun hh => h.1 hh.symm), dictKeys_cons, dictKeys_cons,
      ih h.2, List.cons_append]

theorem nodup_dictKeys_dictSet {d : Obj} {k : String} (v : Json)
    (h : (dictKeys d).Nodup) : (dictKeys (dictSet d k v)).Nodup := by
  by_cases hm : k ∈ dictKeys d
  · rw [dictKeys_dictSet_mem v hm]; exact h
  · rw [dictKeys_dictSet_not_mem v hm]
    simp [List.nodup_append, h, hm]

theorem dictGet?_of_mem_nodup {d : Obj} {p : String × Json}
    (hnd : (dictKeys d).Nodup) (hm : p ∈ d) : dictGet? d p.1 = some p.2 := by
  induction d with
  | nil => simp at hm
  | cons q rest ih =>
    obtain ⟨k₁, v₁⟩ := q
    rw [dictKeys_cons, List.nodup_cons] at hnd
    rcases List.mem_cons.mp hm with h | h
    · subst h
      simp [dictGet?]
    · have hne : k₁ ≠ p.1 := by
        intro he
        exact hnd.1 (he ▸ (List.mem_map.mpr ⟨p, h, rfl⟩ : p.1 ∈ dictKeys rest))
      rw [dictGet?, if_neg hne, ih hnd.2 h]

/-! ### Repeated assignments: `dictSetFold` -/

/-- Apply a list of `d[k] = v` assignments in order. -/
def dictSetFold (d : Obj) (ps : Obj) : Obj :=
  ps.foldl (fun d p => dictSet d p.1 p.2) d

@[simp] theorem dictSetFold_nil (d : Obj) : dictSetFold d [] = d := rfl

@[simp] theorem dictSetFold_cons (d : Obj) (p : String × Json) (ps : Obj) :
    dictSetFold d (p :: ps) = dictSetFold (dictSet d p.1 p.2) ps := rfl

theorem dictSetFold_append (d : Obj) (a b : Obj) :
    dictSetFold d (a ++ b) = dictSetFold (dictSetFold d a) b := by
  simp [dictSetFold, List.foldl_append]

/-- The value the assignment list `ps` leaves at key `k`, starting from `w`. -/
def lastD (ps : Obj) (k : String) (w : Json) : Json :=
  ps.foldl (fun acc p => if p.1 = k then p.2 else acc) w

@[simp] theorem lastD_nil (k : String) (w : Json) : lastD [] k w = w := rfl

@[simp] theorem lastD_cons (p : String × Json) (ps : Obj) (k : String) (w : Json) :
    lastD (p :: ps) k w = lastD ps k (if p.1 = k then p.2 else w) := rfl

theorem lastD_not_mem {ps : Obj} {k : String} (w : Json)
    (h : k ∉ dictKeys ps) : lastD ps k w = w := by
  induction ps generalizing w with
  | nil => rfl
  | cons p rest ih =>
    obtain ⟨k₁, v₁⟩ := p
    rw [dictKeys_cons, List.mem_cons] at h
    push_neg at h
    rw [lastD_cons, if_neg (fun hh => h.1 hh.symm), ih w h.2]

theorem lastD_irrel {ps : Obj} {k : String} (w w' : Json)
    (h : k ∈ dictKeys ps) : lastD ps k w = lastD ps k w' := by
  induction ps generalizing w w' with
  | nil => simp at h
  | cons p rest ih =>
    obtain ⟨k₁, v₁⟩ := p
    by_cases hk : k₁ = k
    · rw [lastD_cons, lastD_cons, if_pos hk, if_pos hk]
    · rw [dictKeys_cons, List.mem_cons] at h
      rcases h with h | h
      · exact absurd h.symm hk
      · rw [lastD_cons, lastD_cons, if_neg hk, if_neg hk, ih w w' h]

theorem dictGet?_dictSetFold_not_mem {ps : Obj} {k : String} (d : Obj)
    (h : k ∉ dictKeys ps) : dictGet? (dictSetFold d ps) k = dictGet? d k := by
  induction ps generalizing d with
  | nil => rfl
  | cons p rest ih =>
    obtain ⟨k₁, v₁⟩ := p
    rw [dictKeys_cons, List.mem_cons] at h
    push_neg at h
    rw [dictSetFold_cons, ih _ h.2, dictGet?_dictSet_ne _ _ h.1]

theorem isSome_dictGet?_dictSet (d : Obj) (k k' : String) (v : Json)
    (h : (dictGet? d k').isSome = true) :
    (dictGet? (dictSet d k v) k').isSome = true := by
  by_cases hk : k' = k
  · subst hk
    rw [dictGet?_dictSet_self]
    rfl
  · rw [dictGet?_dictSet_ne _ _ hk]
    exact h

theorem isSome_dictGet?_dictSetFold (ps : Obj) (d : Obj) (k : String)
    (h : (dictGet? d k).isSome = true) :
    (dictGet? (dictSetFold d ps) k).isSome = true := by
  induction ps generalizing d with
  | nil => exact h
  | cons p rest ih =>
    exact ih _ (isSome_dictGet?_dictSet _ _ _ _ h)

theorem isSome_dictGet?_dictSetFold_of_mem {ps : Obj} {k : String} (d : Obj)
    (h : k ∈ dictKeys ps) : (dictGet? (dictSetFold d ps) k).isSome = true := by
  induction ps generalizing d with
  | nil => simp at h
  | cons p rest ih =>
    obtain ⟨k₁, v₁⟩ := p
    by_cases hk : k ∈ dictKeys rest
    · exact ih _ hk
    · rw [dictKeys_cons, List.mem_cons] at h
      rcases h with h | h
      · subst h
        rw [dictSetFold_cons, dictGet?_dictSetFold_not_mem _ hk,
          dictGet?_dictSet_self]
        rfl
      · exact absurd h hk

theorem nodup_dictKeys_dictSetFold (ps : Obj) {d : Obj}
    (h : (dictKeys d).Nodup) : (dictKeys (dictSetFold d ps)).Nodup := by
  induction ps generalizing d with
  | nil => exact h
  | cons p rest ih =>
    exact ih (nodup_dictKeys_dictSet _ h)

theorem lastD_of_dictGet?_dictSetFold {ps : Obj} {k : String} {v : Json} (d : Obj)
    (h : dictGet? (dictSetFold d ps) k = some v) : lastD ps k v = v := by
  induction ps generalizing d with
  | nil => rfl
  | cons p rest ih =>
    obtain ⟨k₁, v₁⟩ := p
    by_cases hk : k₁ = k
    · subst hk
      rw [lastD_cons, if_pos rfl]
      by_cases hm : k₁ ∈ dictKeys rest
      · rw [lastD_irrel v₁ v hm]
        exact ih _ h
      · rw [lastD_not_mem _ hm]
        rw [dictSetFold_cons, dictGet?_dictSetFold_not_mem _ hm,
          dictGet?_dictSet_self] at h
        exact Option.some.inj h
    · rw [lastD_cons, if_neg hk]
      exact ih _ h

/-- Updating a present key under a nodup dict is an in-place map. -/
theorem dictSet_eq_map_of_mem {d : Obj} {k : String} (v : Json)
    (hnd : (dictKeys d).Nodup) (hmem : k ∈ dictKeys d) :
    dictSet d k v = d.map (fun q => if q.1 = k then (q.1, v) else q) := by
  induction d with
  | nil => simp at hmem
  | cons p rest ih =>
    obtain ⟨k₁, v₁⟩ := p
    rw [dictKeys_cons, List.nodup_cons] at hnd
    by_cases hk : k₁ = k
    · subst hk
      rw [dictSet, if_pos rfl, List.map_cons, if_pos rfl]
      have : rest.map (fun q => if q.1 = k₁ then (q.1, v) else q) = rest := by
        apply List.map_congr_left ?_ |>.trans (List.map_id rest)
        intro q hq
        rw [if_neg, id]
        intro he
        exact hnd.1 (he ▸ (List.mem_map.mpr ⟨q, hq, rfl⟩ : q.1 ∈ dictKeys rest))
      rw [this]
    · rw [dictKeys_cons, List.mem_cons] at hmem
      rcases hmem with hmem | hmem
      · exact absurd hmem.symm hk
      · rw [dictSet, if_neg hk, List.map_cons, if_neg hk, ih hnd.2 hmem]

/-- When every assigned key is already present (nodup), the fold is the
pointwise "last assigned value" map. -/
theorem dictSetFold_eq_map {ps : Obj} {d : Obj}
    (hnd : (dictKeys d).Nodup) (hsub : ∀ k ∈ dictKeys ps, k ∈ dictKeys d) :
    dictSetFold d ps = d.map (fun q => (q.1, lastD ps q.1 q.2)) := by
  induction ps generalizing d with
  | nil =>
    rw [dictSetFold_nil]
    exact ((List.map_congr_left (fun q hq => rfl)).trans (List.map_id d)).symm
  | cons p rest ih =>
    obtain ⟨k₁, v₁⟩ := p
    have hmem : k₁ ∈ dictKeys d := hsub k₁ (by simp)
    have hkeys : dictKeys (dictSet d k₁ v₁) = dictKeys d :=
      dictKeys_dictSet_mem _ hmem
    rw [dictSetFold_cons]
    rw [ih (hkeys ▸ hnd) (fun k hk => hkeys ▸ hsub k (by simp [hk]))]
    rw [dictSet_eq_map_of_mem _ hnd hmem, List.map_map]
    apply List.map_congr_left
    intro q hq
    by_cases hqk : q.1 = k₁
    · simp only [Function.comp, if_pos hqk, lastD_cons]
      rw [if_pos hqk.symm]
    · simp only [Function.comp, if_neg hqk, lastD_cons]
      rw [if_neg (fun hh => hqk hh.symm)]

theorem dictSetFold_idem {d : Obj} (ps : Obj) (hnd : (dictKeys d).Nodup) :
    dictSetFold (dictSetFold d ps) ps = dictSetFold d ps := by
  have hndD : (dictKeys (dictSetFold d ps)).Nodup := nodup_dictKeys_dictSetFold ps hnd
  have hsub : ∀ k ∈ dictKeys ps, k ∈ dictKeys (dictSetFold d ps) := fun k hk =>
    dictGet?_isSome_iff_mem.mp (isSome_dictGet?_dictSetFold_of_mem _ hk)
  rw [dictSetFold_eq_map hndD hsub]
  apply (List.map_congr_left ?_).trans (List.map_id _)
  intro q hq
  have hlast := lastD_of_dictGet?_dictSetFold _ (dictGet?_of_mem_nodup hndD hq)
  show (q.1, lastD ps q.1 q.2) = q
  rw [hlast]

/-! ### The `_meta.hostvars` state layer -/

/-- Rebuild an inventory object with a new hostvars dict (the successful
effect of `setHostvar`). -/
def updHostvars (s : Obj) (hv' : Obj) : Obj :=
  dictSet s "_meta" (Json.obj (dictSet (metaOf s) "hostvars" (Json.obj hv')))

theorem metaWF_initInventory : MetaWF initInventory :=
  ⟨[("hostvars", Json.obj [])], [], rfl, rfl⟩

theorem mem_meta_of_wf {s : Obj} (hWF : MetaWF s) : "_meta" ∈ dictKeys s := by
  obtain ⟨m, hv, h1, _⟩ := hWF
  exact dictGet?_isSome_iff_mem.mp (by rw [h1]; rfl)

theorem metaOf_eq {s : Obj} {m hv : Obj} (h1 : dictGet? s "_meta" = some (Json.obj m))
    (h2 : dictGet? m "hostvars" = some (Json.obj hv)) : metaOf s = m := by
  unfold metaOf
  rw [h1]

theorem hostvarsOf_eq {s : Obj} {m hv : Obj} (h1 : dictGet? s "_meta" = some (Json.obj m))
    (h2 : dictGet? m "hostvars" = some (Json.obj hv)) : hostvarsOf s = hv := by
  unfold hostvarsOf
  rw [metaOf_eq h1 h2, h2]

theorem setHostvar_eq {s : Obj} (h : String) (v : Json) (hWF : MetaWF s) :
    setHostvar s h v = Except.ok (updHostvars s (dictSet (hostvarsOf s) h v)) := by
  obtain ⟨m, hv, h1, h2⟩ := hWF
  simp only [setHostvar, h1, h2, updHostvars, metaOf_eq h1 h2, hostvarsOf_eq h1 h2]

theorem metaOf_dictSet_meta (s : Obj) (m : Obj) :
    metaOf (dictSet s "_meta" (Json.obj m)) = m := by
  unfold metaOf
  rw [dictGet?_dictSet_self]

theorem metaOf_updHostvars (s : Obj) (hv' : Obj) :
    metaOf (updHostvars s hv') = dictSet (metaOf s) "hostvars" (Json.obj hv') :=
  metaOf_dictSet_meta _ _

theorem hostvarsOf_updHostvars (s : Obj) (hv' : Obj) :
    hostvarsOf (updHostvars s hv') = hv' := by
  unfold hostvarsOf
  rw [metaOf_updHostvars, dictGet?_dictSet_self]

theorem metaWF_updHostvars (s : Obj) (hv' : Obj) : MetaWF (updHostvars s hv') :=
  ⟨dictSet (metaOf s) "hostvars" (Json.obj hv'), hv',
    dictGet?_dictSet_self _ _ _, dictGet?_dictSet_self _ _ _⟩

theorem updHostvars_updHostvars (s : Obj) (h₁ h₂ : Obj) :
    updHostvars (updHostvars s h₁) h₂ = updHostvars s h₂ := by
  unfold updHostvars
  rw [metaOf_dictSet_meta, dictSet_dictSet_same, dictSet_dictSet_same]

theorem updHostvars_self {s : Obj} (hWF : MetaWF s) :
    updHostvars s (hostvarsOf s) = s := by
  obtain ⟨m, hv, h1, h2⟩ := hWF
  unfold updHostvars
  rw [metaOf_eq h1 h2, hostvarsOf_eq h1 h2, dictSet_absorb h2, dictSet_absorb h1]

theorem dictGet?_updHostvars_ne (s : Obj) (hv' : Obj) {k : String}
    (h : k ≠ "_meta") : dictGet? (updHostvars s hv') k = dictGet? s k :=
  dictGet?_dictSet_ne _ _ h

theorem metaOf_dictSet_ne (s : Obj) {k : String} (v : Json) (h : k ≠ "_meta") :
    metaOf (dictSet s k v) = metaOf s := by
  unfold metaOf
  rw [dictGet?_dictSet_ne _ _ (fun hh => h hh.symm)]

theorem hostvarsOf_dictSet_ne (s : Obj) {k : String} (v : Json) (h : k ≠ "_meta") :
    hostvarsOf (dictSet s k v) = hostvarsOf s := by
  unfold hostvarsOf
  rw [metaOf_dictSet_ne _ _ h]

theorem metaWF_dictSet_ne {s : Obj} {k : String} (v : Json) (h : k ≠ "_meta")
    (hWF : MetaWF s) : MetaWF (dictSet s k v) := by
  obtain ⟨m, hv, h1, h2⟩ := hWF
  exact ⟨m, hv, by rw [dictGet?_dictSet_ne _ _ (fun hh => h hh.symm)]; exact h1, h2⟩

theorem updHostvars_dictSet_comm {s : Obj} {k : String} (v : Json) (hv' : Obj)
    (h : k ≠ "_meta") (hWF : MetaWF s) :
    updHostvars (dictSet s k v) hv' = dictSet (updHostvars s hv') k v := by
  unfold updHostvars
  rw [metaOf_dictSet_ne _ _ h]
  exact (dictSet_comm_mem s _ _ (fun hh => h hh.symm) (mem_meta_of_wf hWF)).symm

/-! ### Write plans: the state effect of one run, in normal form -/

theorem pure_eq_ok {α : Type} (a : α) : (pure a : Except Unit α) = Except.ok a := rfl

theorem ok_bind {α β : Type} (a : α) (f : α → Except Unit β) :
    (Except.ok a >>= f : Except Unit β) = f a := rfl

theorem error_bind {α β : Type} (f : α → Except Unit β) :
    ((Except.error () : Except Unit α) >>= f : Except Unit β) = Except.error () := rfl

theorem pure_bind' {α β : Type} (a : α) (f : α → Except Unit β) :
    ((pure a : Except Unit α) >>= f : Except Unit β) = f a := rfl

theorem except_map_ok {α β : Type} (a : α) (f : α → β) :
    (Except.ok a : Except Unit α).map f = Except.ok (f a) := rfl

/-- The hostvars-write loop shared by all group blocks. -/
def hvFold (s : Obj) (W : Obj) : Except Unit Obj :=
  W.foldlM (fun s p => setHostvar s p.1 p.2) s

theorem hvFold_eq {W : Obj} {s : Obj} (hWF : MetaWF s) :
    hvFold s W = Except.ok (updHostvars s (dictSetFold (hostvarsOf s) W)) := by
  induction W generalizing s with
  | nil =>
    rw [hvFold, List.foldlM_nil, dictSetFold_nil, updHostvars_self hWF, pure_eq_ok]
  | cons p rest ih =>
    rw [hvFold, List.foldlM_cons, setHostvar_eq _ _ hWF, ok_bind]
    show hvFold _ rest = _
    rw [ih (metaWF_updHostvars _ _), hostvarsOf_updHostvars,
      updHostvars_updHostvars, dictSetFold_cons]

/-- A pending group write: group key, group value, hostvars writes. -/
abbrev Plan := String × Json × Obj

/-- The state effect of one group block: set the group entry, then run its
hostvars writes. -/
def applyPlan (s : Obj) (p : Plan) : Except Unit Obj :=
  hvFold (dictSet s p.1 p.2.1) p.2.2

/-- The state effect of a sequence of group blocks. -/
def applyPlans (s : Obj) (ps : List Plan) : Except Unit Obj :=
  ps.foldlM applyPlan s

@[simp] theorem applyPlans_nil (s : Obj) : applyPlans s [] = Except.ok s := rfl

@[simp] theorem applyPlans_cons (s : Obj) (p : Plan) (ps : List Plan) :
    applyPlans s (p :: ps) = applyPlan s p >>= fun t => applyPlans t ps := rfl

/-- Just the group-entry writes of a sequence of plans. -/
def topApply (d : Obj) (ps : List Plan) : Obj :=
  ps.foldl (fun d p => dictSet d p.1 p.2.1) d

@[simp] theorem topApply_nil (d : Obj) : topApply d [] = d := rfl

@[simp] theorem topApply_cons (d : Obj) (p : Plan) (ps : List Plan) :
    topApply d (p :: ps) = topApply (dictSet d p.1 p.2.1) ps := rfl

/-- All hostvars writes of a sequence of plans, in order. -/
def flatW : List Plan → Obj
  | [] => []
  | p :: ps => p.2.2 ++ flatW ps

/-- The optional trailing `self.inventory['all'] = v` write. -/
def allApply (d : Obj) : Option Json → Obj
  | none => d
  | some v => dictSet d "all" v

theorem applyPlans_eq {ps : List Plan} {s : Obj} (hWF : MetaWF s)
    (hks : ∀ p ∈ ps, p.1 ≠ "_meta") :
    applyPlans s ps =
      Except.ok (topApply (updHostvars s (dictSetFold (hostvarsOf s) (flatW ps))) ps) := by
  induction ps generalizing s with
  | nil =>
    rw [applyPlans_nil, topApply_nil, flatW, dictSetFold_nil, updHostvars_self hWF]
  | cons p rest ih =>
    have hp : p.1 ≠ "_meta" := (hks p (List.mem_cons_self _ _))
    have hWF1 : MetaWF (dictSet s p.1 p.2.1) := metaWF_dictSet_ne _ hp hWF
    rw [applyPlans_cons, applyPlan, hvFold_eq hWF1, ok_bind,
      hostvarsOf_dictSet_ne _ _ hp,
      updHostvars_dictSet_comm _ _ hp hWF,
      ih (metaWF_dictSet_ne _ hp (metaWF_updHostvars _ _))
        (fun q hq => hks q (List.mem_cons_of_mem _ hq)),
      hostvarsOf_dictSet_ne _ _ hp, hostvarsOf_updHostvars,
      updHostvars_dictSet_comm _ _ hp (metaWF_updHostvars _ _),
      updHostvars_updHostvars, ← dictSetFold_append, topApply_cons, flatW]

theorem hostvarsOf_topApply (ps : List Plan) {d : Obj}
    (hks : ∀ p ∈ ps, p.1 ≠ "_meta") :
    hostvarsOf (topApply d ps) = hostvarsOf d := by
  induction ps generalizing d with
  | nil => rfl
  | cons p rest ih =>
    rw [topApply_cons, ih (fun q hq => hks q (List.mem_cons_of_mem _ hq)),
      hostvarsOf_dictSet_ne _ _ (hks p (List.mem_cons_self _ _))]

theorem metaWF_topApply (ps : List Plan) {d : Obj}
    (hks : ∀ p ∈ ps, p.1 ≠ "_meta") (hWF : MetaWF d) : MetaWF (topApply d ps) := by
  induction ps generalizing d with
  | nil => exact hWF
  | cons p rest ih =>
    exact ih (fun q hq => hks q (List.mem_cons_of_mem _ hq))
      (metaWF_dictSet_ne _ (hks p (List.mem_cons_self _ _)) hWF)

theorem updHostvars_topApply_comm (ps : List Plan) {d : Obj} (hv' : Obj)
    (hks : ∀ p ∈ ps, p.1 ≠ "_meta") (hWF : MetaWF d) :
    updHostvars (topApply d ps) hv' = topApply (updHostvars d hv') ps := by
  induction ps generalizing d with
  | nil => rfl
  | cons p rest ih =>
    rw [topApply_cons, ih (fun q hq => hks q (List.mem_cons_of_mem _ hq))
        (metaWF_dictSet_ne _ (hks p (List.mem_cons_self _ _)) hWF),
      updHostvars_dictSet_comm _ _ (hks p (List.mem_cons_self _ _)) hWF,
      topApply_cons]

theorem dictGet?_topApply_not_mem {ps : List Plan} {k : String} (d : Obj)
    (h : ∀ p ∈ ps, p.1 ≠ k) : dictGet? (topApply d ps) k = dictGet? d k := by
  induction ps generalizing d with
  | nil => rfl
  | cons p rest ih =>
    rw [topApply_cons, ih _ (fun q hq => h q (List.mem_cons_of_mem _ hq)),
      dictGet?_dictSet_ne _ _ (fun hh => h p (List.mem_cons_self _ _) hh.symm)]

theorem dictGet?_topApply_of_mem {ps : List Plan} {p : Plan} (d : Obj)
    (hnd : (ps.map (fun q => q.1)).Nodup) (hp : p ∈ ps) :
    dictGet? (topApply d ps) p.1 = some p.2.1 := by
  induction ps generalizing d with
  | nil => simp at hp
  | cons q rest ih =>
    rw [List.map_cons, List.nodup_cons] at hnd
    rcases List.mem_cons.mp hp with h | h
    · subst h
      rw [topApply_cons,
        dictGet?_topApply_not_mem _
          (fun r hr hc => hnd.1 (List.mem_map.mpr ⟨r, hr, hc⟩)),
        dictGet?_dictSet_self]
    · rw [topApply_cons, ih _ hnd.2 h]

theorem topApply_absorb {ps : List Plan} {d : Obj}
    (hlook : ∀ p ∈ ps, dictGet? d p.1 = some p.2.1) : topApply d ps = d := by
  induction ps with
  | nil => rfl
  | cons p rest ih =>
    rw [topApply_cons, dictSet_absorb (hlook p (List.mem_cons_self _ _))]
    exact ih (fun q hq => hlook q (List.mem_cons_of_mem _ hq))

theorem dictGet?_allApply_ne (d : Obj) (av : Option Json) {k : String}
    (h : k ≠ "all") : dictGet? (allApply d av) k = dictGet? d k := by
  cases av with
  | none => rfl
  | some v => exact dictGet?_dictSet_ne _ _ h

theorem hostvarsOf_allApply (d : Obj) (av : Option Json) :
    hostvarsOf (allApply d av) = hostvarsOf d := by
  cases av with
  | none => rfl
  | some v => exact hostvarsOf_dictSet_ne _ _ (by decide)

theorem metaWF_allApply {d : Obj} (av : Option Json) (hWF : MetaWF d) :
    MetaWF (allApply d av) := by
  cases av with
  | none => exact hWF
  | some v => exact metaWF_dictSet_ne _ (by decide) hWF

theorem updHostvars_allApply_comm {d : Obj} (av : Option Json) (hv' : Obj)
    (hWF : MetaWF d) :
    updHostvars (allApply d av) hv' = allApply (updHostvars d hv') av := by
  cases av with
  | none => rfl
  | some v => exact updHostvars_dictSet_comm _ _ (by decide) hWF

/-- Running the same write plan twice leaves the state of the first run
unchanged. -/
theorem applyAll_idem {ps : List Plan} {av : Option Json} {s s₁ : Obj}
    (hWF : MetaWF s) (hnd : (dictKeys (hostvarsOf s)).Nodup)
    (hks : ∀ p ∈ ps, p.1 ≠ "_meta" ∧ p.1 ≠ "all")
    (hndk : (ps.map (fun q => q.1)).Nodup)
    (h1 : (applyPlans s ps).map (fun t => allApply t av) = Except.ok s₁) :
    (applyPlans s₁ ps).map (fun t => allApply t av) = Except.ok s₁ := by
  have hksm : ∀ p ∈ ps, p.1 ≠ "_meta" := fun p hp => (hks p hp).1
  rw [applyPlans_eq hWF hksm] at h1
  rw [except_map_ok] at h1
  set X := dictSetFold (hostvarsOf s) (flatW ps) with hX
  set T := topApply (updHostvars s X) ps with hT
  have hs₁ : s₁ = allApply T av := (Except.ok.inj h1).symm
  have hWFuX : MetaWF (updHostvars s X) := metaWF_updHostvars _ _
  have hWFT : MetaWF T := metaWF_topApply _ hksm hWFuX
  have hWFs₁ : MetaWF s₁ := hs₁ ▸ metaWF_allApply _ hWFT
  have hhvT : hostvarsOf T = X := by
    rw [hT, hostvarsOf_topApply _ hksm, hostvarsOf_updHostvars]
  have hhvs₁ : hostvarsOf s₁ = X := by
    rw [hs₁, hostvarsOf_allApply, hhvT]
  have hXX : dictSetFold (hostvarsOf s₁) (flatW ps) = X := by
    rw [hhvs₁, hX]
    exact dictSetFold_idem _ hnd
  have hupd : updHostvars s₁ X = s₁ := by
    rw [hs₁, updHostvars_allApply_comm _ _ hWFT, hT,
      updHostvars_topApply_comm _ _ hksm hWFuX, updHostvars_updHostvars]
  have hlook : ∀ p ∈ ps, dictGet? s₁ p.1 = some p.2.1 := by
    intro p hp
    rw [hs₁, dictGet?_allApply_ne _ _ (hks p hp).2, hT,
      dictGet?_topApply_of_mem _ hndk hp]
  have hall : allApply s₁ av = s₁ := by
    cases av with
    | none => rfl
    | some v =>
      have hget : dictGet? s₁ "all" = some v := by
        rw [hs₁]
        exact dictGet?_dictSet_self _ _ _
      exact dictSet_absorb hget
  rw [applyPlans_eq hWFs₁ hksm, hXX, hupd, topApply_absorb hlook, except_map_ok, hall]

theorem bind_error_const {α β : Type} (x : Except Unit α) :
    (x >>= fun _ => (Except.error () : Except Unit β)) = Except.error () := by
  cases x <;> rfl

theorem hvFold_map {α : Type} (l : List α) (f : α → String × Json) (s : Obj) :
    l.foldlM (fun t a => setHostvar t (f a).1 (f a).2) s = hvFold s (l.map f) := by
  rw [hvFold, List.foldlM_map]

/-- The group entry value written for a group with the given host names and
fixed vars. -/
def groupEntry (names : List String) (gvars : Obj) : Json :=
  Json.obj [("hosts", Json.arr (names.map Json.str)), ("vars", Json.obj gvars)]

/-- Synthetic 1-based host names of the fallback path. -/
def synthNames (pre : String) (n : Nat) : List String :=
  (List.range n).map (fun i => pre ++ toString (i+1))

/-- The per-host writes of a fallback address-list block. -/
def synthW (pre : String) (ips : List Json) : Obj :=
  ips.enum.map (fun p => (pre ++ toString (p.1+1),
    Json.obj [("ansible_host", p.2), ("ansible_user", Json.str "ubuntu")]))

/-- The pending writes of the fallback web block (lines 110-126). -/
def webPlan (tf : Obj) : Except Unit (List Plan) := do
  let webIps ← getValue tf "web_instance_public_ips" (Json.arr [])
  if pyTruthy webIps then do
    let ips ← pyIter webIps
    pure [("webservers",
      groupEntry (synthNames "web-" ips.length)
        [("ansible_user", Json.str "ubuntu"), ("server_type", Json.str "webserver")],
      synthW "web-" ips)]
  else pure []

/-- The pending writes of the fallback app block (lines 128-144). -/
def appPlan (tf : Obj) : Except Unit (List Plan) := do
  let appIps ← getValue tf "app_instance_private_ips" (Json.arr [])
  if pyTruthy appIps then do
    let ips ← pyIter appIps
    pure [("appservers",
      groupEntry (synthNames "app-" ips.length)
        [("ansible_user", Json.str "ubuntu"), ("server_type", Json.str "appserver")],
      synthW "app-" ips)]
  else pure []

/-- The pending writes of the fallback database block (lines 146-160). -/
def dbPlan (tf : Obj) : Except Unit (List Plan) := do
  let dbEndpoint ← getValue tf "database_endpoint" Json.null
  if pyTruthy dbEndpoint then do
    let hostAddr ← pySplitHead dbEndpoint
    let engine ← getValue tf "database_engine" (Json.str "postgres")
    let port ← getValue tf "database_port" (Json.num 5432)
    pure [("databases", groupEntry ["database"] databasesVars,
      [("database", Json.obj [("ansible_host", Json.str hostAddr),
        ("db_engine", engine), ("db_port", port)])])]
  else pure []

/-- The `all` entry written by the fallback path (lines 162-169). -/
def allVarsVal (tf : Obj) : Except Unit Json := do
  let env ← infraGet tf "environment" "unknown"
  let region ← infraGet tf "region" "us-west-2"
  pure (Json.obj [("vars", Json.obj [("environment", env),
    ("project_name", Json.str "iac-solution"), ("aws_region", region)])])

theorem bind_congr_fun {α β : Type} (x : Except Unit α) {f g : α → Except Unit β}
    (h : ∀ a, f a = g a) : x >>= f = x >>= g := by
  cases x with
  | error e => rfl
  | ok a => exact h a

theorem except_bind_pure {α : Type} (x : Except Unit α) : x >>= pure = x := by
  cases x <;> rfl

theorem except_map_eq_bind {α β : Type} (x : Except Unit α) (f : α → β) :
    x.map f = x >>= fun a => pure (f a) := by
  cases x <;> rfl

theorem hvFold_singleton (s : Obj) (k : String) (v : Json) :
    hvFold s [(k, v)] = setHostvar s k v := by
  show setHostvar s k v >>= _ = _
  cases hs : setHostvar s k v <;> rfl

/-- The pending write of one preferred-path group block (the pure part of
`processGroup`). -/
def groupPlan (name : String) (gvars : Obj) (children : Json) :
    Except Unit (Option Plan) := do
  let b1 ← pyContains children name
  if b1 then do
    let grp ← pySubscript children name
    let b2 ← pyContains grp "hosts"
    if b2 then do
      let hostsJ ← pySubscript grp "hosts"
      let ks ← pyKeys hostsJ
      let items ← pyItems hostsJ
      pure (some (name, groupEntry ks gvars, items))
    else pure none
  else pure none

theorem processGroup_eq (name : String) (gvars : Obj) (children : Json) (inv : Obj) :
    processGroup name gvars children inv =
      groupPlan name gvars children >>= fun op =>
        match op with
        | none => pure inv
        | some p => applyPlan inv p := by
  unfold processGroup groupPlan
  cases hc1 : pyContains children name with
  | error e => cases e; rfl
  | ok b1 =>
    cases b1 with
    | false => rfl
    | true =>
      simp only [ok_bind, if_true]
      cases hc2 : pySubscript children name with
      | error e => cases e; rfl
      | ok grp =>
        simp only [ok_bind]
        cases hc3 : pyContains grp "hosts" with
        | error e => cases e; rfl
        | ok b2 =>
          cases b2 with
          | false => rfl
          | true =>
            simp only [ok_bind, if_true]
            cases hc4 : pySubscript grp "hosts" with
            | error e => cases e; rfl
            | ok hostsJ =>
              simp only [ok_bind]
              cases hc5 : pyKeys hostsJ with
              | error e => cases e; rfl
              | ok ks =>
                simp only [ok_bind]
                cases hc6 : pyItems hostsJ with
                | error e => cases e; rfl
                | ok items =>
                  simp only [ok_bind, pure_eq_ok]
                  rfl

theorem synthW_foldlM (pre : String) (ips : List Json) (s : Obj) :
    List.foldlM (fun t p => setHostvar t (pre ++ toString (p.1+1))
      (Json.obj [("ansible_host", p.2), ("ansible_user", Json.str "ubuntu")])) s ips.enum
    = hvFold s (synthW pre ips) := by
  rw [synthW, hvFold, List.foldlM_map]

theorem groupEntry_synth (pre : String) (n : Nat) (gv : Obj) :
    groupEntry (synthNames pre n) gv =
      Json.obj [("hosts", Json.arr ((List.range n).map
          (fun i => Json.str (pre ++ toString (i+1))))), ("vars", Json.obj gv)] := by
  rw [groupEntry, synthNames, List.map_map]
  rfl

theorem except_bind_map {α β γ : Type} (x : Except Unit α) (g : α → Except Unit β)
    (f : β → γ) : (x >>= g).map f = x >>= fun a => (g a).map f := by
  cases x <;> rfl

/-- Proof-layer view of the fallback path from the database block on, for an
arbitrary current inventory `s` (the computes are already resolved to the
values `dbv` and `av0`). -/
def dbTail (tf : Obj) (dbv : Json) (av0 : Json) (s : Obj) : Except Unit Obj :=
  if pyTruthy dbv = true then do
    let hostAddr ← pySplitHead dbv
    let engine ← getValue tf "database_engine" (Json.str "postgres")
    let port ← getValue tf "database_port" (Json.num 5432)
    let y ← setHostvar (dictSet s "databases"
      (Json.obj [("hosts", Json.arr [Json.str "database"]),
        ("vars", Json.obj databasesVars)])) "database"
      (Json.obj [("ansible_host", Json.str hostAddr),
        ("db_engine", engine), ("db_port", port)])
    Except.ok (dictSet y "all" av0)
  else Except.ok (dictSet s "all" av0)

/-- Proof-layer view of the fallback path from the app block on. -/
def appTail (tf : Obj) (a dbv : Json) (av0 : Json) (s : Obj) : Except Unit Obj :=
  if pyTruthy a = true then do
    let ips ← pyIter a
    let y ← List.foldlM (fun inv p => setHostvar inv ("app-" ++ toString (p.1+1))
        (Json.obj [("ansible_host", p.2), ("ansible_user", Json.str "ubuntu")]))
      (dictSet s "appservers"
        (Json.obj [("hosts", Json.arr (List.map
            (fun i => Json.str ("app-" ++ toString (i+1))) (List.range ips.length))),
          ("vars", Json.obj [("ansible_user", Json.str "ubuntu"),
            ("server_type", Json.str "appserver")])])) ips.enum
    dbTail tf dbv av0 y
  else dbTail tf dbv av0 s

theorem fb_tail_db {tf : Obj} {dbv : Json} {pd : List Plan} (av0 : Json) (s : Obj)
    (hd : (if pyTruthy dbv = true then do
        let hostAddr ← pySplitHead dbv
        let engine ← getValue tf "database_engine" (Json.str "postgres")
        let port ← getValue tf "database_port" (Json.num 5432)
        pure [("databases", groupEntry ["database"] databasesVars,
          [("database", Json.obj [("ansible_host", Json.str hostAddr),
            ("db_engine", engine), ("db_port", port)])])]
      else pure []) = Except.ok pd) :
    dbTail tf dbv av0 s = (applyPlans s pd).map (fun t => allApply t (some av0)) := by
  unfold dbTail
  cases htd : pyTruthy dbv with
  | false =>
    simp only [htd, Bool.false_eq_true, if_false] at hd ⊢
    rw [pure_eq_ok] at hd
    cases hd
    simp [applyPlans_nil, except_map_ok, allApply]
  | true =>
    simp only [htd, if_true] at hd ⊢
    cases hsp : pySplitHead dbv with
    | error e => rw [hsp] at hd; cases hd
    | ok hostAddr =>
    rw [hsp] at hd
    simp only [ok_bind] at hd ⊢
    cases hen : getValue tf "database_engine" (Json.str "postgres") with
    | error e => rw [hen] at hd; cases hd
    | ok engine =>
    rw [hen] at hd
    simp only [ok_bind] at hd ⊢
    cases hpo : getValue tf "database_port" (Json.num 5432) with
    | error e => rw [hpo] at hd; cases hd
    | ok port =>
    rw [hpo] at hd
    simp only [ok_bind, pure_eq_ok] at hd ⊢
    cases hd
    simp only [applyPlans_cons, applyPlans_nil, applyPlan, hvFold_singleton,
      except_map_eq_bind, bind_assoc, pure_eq_ok, ok_bind, groupEntry]
    apply bind_congr_fun
    intro y
    simp [allApply]

theorem fb_tail_app {tf : Obj} {a dbv : Json} {pa pd : List Plan} (av0 : Json) (s : Obj)
    (ha : (if pyTruthy a = true then do
        let ips ← pyIter a
        pure [("appservers", groupEntry (synthNames "app-" ips.length)
          [("ansible_user", Json.str "ubuntu"), ("server_type", Json.str "appserver")],
          synthW "app-" ips)]
      else pure []) = Except.ok pa)
    (hd : (if pyTruthy dbv = true then do
        let hostAddr ← pySplitHead dbv
        let engine ← getValue tf "database_engine" (Json.str "postgres")
        let port ← getValue tf "database_port" (Json.num 5432)
        pure [("databases", groupEntry ["database"] databasesVars,
          [("database", Json.obj [("ansible_host", Json.str hostAddr),
            ("db_engine", engine), ("db_port", port)])])]
      else pure []) = Except.ok pd) :
    appTail tf a dbv av0 s = (applyPlans s (pa ++ pd)).map (fun t => allApply t (some av0)) := by
  unfold appTail
  cases hta : pyTruthy a with
  | false =>
    simp only [hta, Bool.false_eq_true, if_false] at ha ⊢
    rw [pure_eq_ok] at ha
    cases ha
    rw [List.nil_append]
    exact fb_tail_db av0 s hd
  | true =>
    simp only [hta, if_true] at ha ⊢
    cases hia : pyIter a with
    | error e => rw [hia] at ha; cases ha
    | ok ips =>
    rw [hia] at ha
    simp only [ok_bind, pure_eq_ok] at ha ⊢
    cases ha
    rw [List.cons_append, applyPlans_cons, except_bind_map, synthW_foldlM,
      applyPlan, groupEntry_synth]
    apply bind_congr_fun
    intro y
    exact fb_tail_db av0 y hd

/-- The fallback path under explicit plan results: it performs exactly the
three group blocks' writes and then sets the `all` entry. -/
theorem parse_plans_ok {tf : Obj} {pw pa pd : List Plan} {av : Json} (inv : Obj)
    (hw : webPlan tf = Except.ok pw) (ha : appPlan tf = Except.ok pa)
    (hd : dbPlan tf = Except.ok pd) (hv : allVarsVal tf = Except.ok av) :
    parse_individual_outputs tf inv =
      (applyPlans inv (pw ++ pa ++ pd)).map (fun t => allApply t (some av)) := by
  unfold parse_individual_outputs
  unfold webPlan at hw
  unfold appPlan at ha
  unfold dbPlan at hd
  unfold allVarsVal at hv
  cases hgw : getValue tf "web_instance_public_ips" (Json.arr []) with
  | error e => rw [hgw] at hw; cases hw
  | ok w =>
  rw [hgw] at hw
  simp only [ok_bind] at hw ⊢
  cases hga : getValue tf "app_instance_private_ips" (Json.arr []) with
  | error e => rw [hga] at ha; cases ha
  | ok a =>
  rw [hga] at ha
  simp only [ok_bind] at ha ⊢
  cases hgd : getValue tf "database_endpoint" Json.null with
  | error e => rw [hgd] at hd; cases hd
  | ok dbv =>
  rw [hgd] at hd
  simp only [ok_bind] at hd ⊢
  cases hge : infraGet tf "environment" "unknown" with
  | error e => rw [hge] at hv; cases hv
  | ok env =>
  rw [hge] at hv
  simp only [ok_bind] at hv ⊢
  cases hgr : infraGet tf "region" "us-west-2" with
  | error e => rw [hgr] at hv; cases hv
  | ok region =>
  rw [hgr] at hv
  simp only [ok_bind, pure_eq_ok] at hv ⊢
  cases hv
  cases htw : pyTruthy w with
  | false =>
    simp only [htw, Bool.false_eq_true, if_false] at hw ⊢
    rw [pure_eq_ok] at hw
    cases hw
    rw [List.nil_append]
    exact fb_tail_app _ inv ha hd
  | true =>
    simp only [htw, if_true] at hw ⊢
    cases hiw : pyIter w with
    | error e => rw [hiw] at hw; cases hw
    | ok ips =>
    rw [hiw] at hw
    simp only [ok_bind, pure_eq_ok] at hw ⊢
    cases hw
    rw [List.cons_append, List.cons_append, applyPlans_cons, except_bind_map,
      synthW_foldlM, applyPlan, groupEntry_synth]
    apply bind_congr_fun
    intro y
    exact fb_tail_app _ y ha hd

theorem bind_error_fun {α β : Type} {x : Except Unit α} {K : α → Except Unit β}
    (h : ∀ a, K a = Except.error ()) : x >>= K = Except.error () := by
  cases x with
  | error e => rfl
  | ok a => exact h a

theorem parse_err_of_web {tf : Obj} (inv : Obj)
    (hw : webPlan tf = Except.error ()) :
    parse_individual_outputs tf inv = Except.error () := by
  unfold parse_individual_outputs
  unfold webPlan at hw
  cases hgw : getValue tf "web_instance_public_ips" (Json.arr []) with
  | error e => cases e; rfl
  | ok w =>
  rw [hgw] at hw
  simp only [ok_bind] at hw ⊢
  cases htw : pyTruthy w with
  | false =>
    rw [htw] at hw
    simp only [Bool.false_eq_true, if_false] at hw
    cases hw
  | true =>
    simp only [htw, if_true] at hw ⊢
    cases hiw : pyIter w with
    | error e => cases e; rfl
    | ok ips =>
    rw [hiw] at hw
    simp only [ok_bind, pure_eq_ok] at hw
    cases hw

/-- Proof-layer view: the fallback source from line 162 (`# Add common vars`)
onward, for current inventory `s`. -/
def fbTailAll (tf : Obj) (s : Obj) : Except Unit Obj := do
  let env ← infraGet tf "environment" "unknown"
  let region ← infraGet tf "region" "us-west-2"
  pure (dictSet s "all"
    (Json.obj [("vars", Json.obj [("environment", env),
      ("project_name", Json.str "iac-solution"), ("aws_region", region)])]))

/-- Proof-layer view: the fallback source from line 146 (`# Extract database
info`) onward, for current inventory `s`. -/
def fbTailDb (tf : Obj) (s : Obj) : Except Unit Obj := do
  let dbEndpoint ← getValue tf "database_endpoint" Json.null
  let inv ←
    if pyTruthy dbEndpoint then do
      let inv := dictSet s "databases"
        (Json.obj [("hosts", Json.arr [Json.str "database"]),
          ("vars", Json.obj databasesVars)])
      let hostAddr ← pySplitHead dbEndpoint
      let engine ← getValue tf "database_engine" (Json.str "postgres")
      let port ← getValue tf "database_port" (Json.num 5432)
      setHostvar inv "database"
        (Json.obj [("ansible_host", Json.str hostAddr),
          ("db_engine", engine), ("db_port", port)])
    else pure s
  fbTailAll tf inv

/-- Proof-layer view: the fallback source from line 128 (`# Extract app
servers`) onward, for current inventory `s`. -/
def fbTailApp (tf : Obj) (s : Obj) : Except Unit Obj := do
  let appIps ← getValue tf "app_instance_private_ips" (Json.arr [])
  let inv ←
    if pyTruthy appIps then do
      let ips ← pyIter appIps
      let inv := dictSet s "appservers"
        (Json.obj [("hosts", Json.arr ((List.range ips.length).map
            (fun i => Json.str ("app-" ++ toString (i+1))))),
          ("vars", Json.obj [("ansible_user", Json.str "ubuntu"),
            ("server_type", Json.str "appserver")])])
      ips.enum.foldlM (fun inv p => setHostvar inv ("app-" ++ toString (p.1+1))
        (Json.obj [("ansible_host", p.2), ("ansible_user", Json.str "ubuntu")])) inv
    else pure s
  fbTailDb tf inv

theorem fbTailAll_err {tf : Obj} (s : Obj)
    (hv : allVarsVal tf = Except.error ()) : fbTailAll tf s = Except.error () := by
  unfold fbTailAll
  unfold allVarsVal at hv
  cases hge : infraGet tf "environment" "unknown" with
  | error e => cases e; rfl
  | ok env =>
  rw [hge] at hv
  simp only [ok_bind] at hv ⊢
  cases hgr : infraGet tf "region" "us-west-2" with
  | error e => cases e; rfl
  | ok region =>
  rw [hgr] at hv
  simp only [ok_bind, pure_eq_ok] at hv
  cases hv

theorem fbTailDb_err_db {tf : Obj} (s : Obj)
    (hd : dbPlan tf = Except.error ()) : fbTailDb tf s = Except.error () := by
  unfold fbTailDb
  unfold dbPlan at hd
  cases hgd : getValue tf "database_endpoint" Json.null with
  | error e => cases e; rfl
  | ok dbv =>
  rw [hgd] at hd
  simp only [ok_bind] at hd ⊢
  cases htd : pyTruthy dbv with
  | false =>
    rw [htd] at hd
    simp only [Bool.false_eq_true, if_false] at hd
    cases hd
  | true =>
    simp only [htd, if_true] at hd ⊢
    cases hsp : pySplitHead dbv with
    | error e => cases e; rfl
    | ok hostAddr =>
    rw [hsp] at hd
    simp only [ok_bind] at hd ⊢
    cases hen : getValue tf "database_engine" (Json.str "postgres") with
    | error e => cases e; rfl
    | ok engine =>
    rw [hen] at hd
    simp only [ok_bind] at hd ⊢
    cases hpo : getValue tf "database_port" (Json.num 5432) with
    | error e => cases e; rfl
    | ok port =>
    rw [hpo] at hd
    simp only [ok_bind, pure_eq_ok] at hd
    cases hd

theorem fbTailDb_err_all {tf : Obj} (s : Obj)
    (hv : allVarsVal tf = Except.error ()) : fbTailDb tf s = Except.error () := by
  unfold fbTailDb
  apply bind_error_fun
  intro dbv
  dsimp only
  split
  · apply bind_error_fun
    intro hostAddr
    apply bind_error_fun
    intro engine
    apply bind_error_fun
    intro port
    apply bind_error_fun
    intro y
    exact fbTailAll_err y hv
  · apply bind_error_fun
    intro y
    exact fbTailAll_err y hv

theorem fbTailApp_err_app {tf : Obj} (s : Obj)
    (ha : appPlan tf = Except.error ()) : fbTailApp tf s = Except.error () := by
  unfold fbTailApp
  unfold appPlan at ha
  cases hga : getValue tf "app_instance_private_ips" (Json.arr []) with
  | error e => cases e; rfl
  | ok a =>
  rw [hga] at ha
  simp only [ok_bind] at ha ⊢
  cases hta : pyTruthy a with
  | false =>
    rw [hta] at ha
    simp only [Bool.false_eq_true, if_false] at ha
    cases ha
  | true =>
    simp only [hta, if_true] at ha ⊢
    cases hia : pyIter a with
    | error e => cases e; rfl
    | ok ips =>
    rw [hia] at ha
    simp only [ok_bind, pure_eq_ok] at ha
    cases ha

theorem fbTailApp_err_later {tf : Obj} (s : Obj)
    (h : ∀ t, fbTailDb tf t = Except.error ()) : fbTailApp tf s = Except.error () := by
  unfold fbTailApp
  apply bind_error_fun
  intro a
  dsimp only
  split
  · apply bind_error_fun
    intro ips
    apply bind_error_fun
    intro y
    exact h y
  · apply bind_error_fun
    intro y
    exact h y

theorem parse_tail_decomp (tf : Obj) (inv : Obj)
    (h : ∀ t, fbTailApp tf t = Except.error ()) :
    parse_individual_outputs tf inv = Except.error () := by
  unfold parse_individual_outputs
  apply bind_error_fun
  intro w
  dsimp only
  split
  · apply bind_error_fun
    intro ips
    apply bind_error_fun
    intro y
    exact h y
  · apply bind_error_fun
    intro y
    exact h y

theorem parse_err_of_app {tf : Obj} (inv : Obj)
    (ha : appPlan tf = Except.error ()) :
    parse_individual_outputs tf inv = Except.error () :=
  parse_tail_decomp tf inv (fun t => fbTailApp_err_app t ha)

theorem parse_err_of_db {tf : Obj} (inv : Obj)
    (hd : dbPlan tf = Except.error ()) :
    parse_individual_outputs tf inv = Except.error () :=
  parse_tail_decomp tf inv
    (fun t => fbTailApp_err_later t (fun u => fbTailDb_err_db u hd))

theorem parse_err_of_allv {tf : Obj} (inv : Obj)
    (hv : allVarsVal tf = Except.error ()) :
    parse_individual_outputs tf inv = Except.error () :=
  parse_tail_decomp tf inv
    (fun t => fbTailApp_err_later t (fun u => fbTailDb_err_all u hv))

/-- A successful fallback run determines successful plan computations. -/
theorem parse_fb_extract {tf inv : Obj} {s' : Obj}
    (h : parse_individual_outputs tf inv = Except.ok s') :
    ∃ pw pa pd av, webPlan tf = Except.ok pw ∧ appPlan tf = Except.ok pa ∧
      dbPlan tf = Except.ok pd ∧ allVarsVal tf = Except.ok av := by
  cases hw : webPlan tf with
  | error e => cases e; rw [parse_err_of_web inv hw] at h; cases h
  | ok pw =>
  cases ha : appPlan tf with
  | error e => cases e; rw [parse_err_of_app inv ha] at h; cases h
  | ok pa =>
  cases hd : dbPlan tf with
  | error e => cases e; rw [parse_err_of_db inv hd] at h; cases h
  | ok pd =>
  cases hv : allVarsVal tf with
  | error e => cases e; rw [parse_err_of_allv inv hv] at h; cases h
  | ok av => exact ⟨pw, pa, pd, av, rfl, rfl, rfl, rfl⟩

/-- The optional `all` write of the preferred path (lines 97-101). -/
def prefAllVal (allv : Json) : Except Unit (Option Json) := do
  let b3 ← pyContains allv "vars"
  if b3 then do
    let v ← pySubscript allv "vars"
    pure (some (Json.obj [("vars", v)]))
  else pure none

theorem chain1 {children : Json} {o3 : Option Plan}
    (h3 : groupPlan "databases" databasesVars children = Except.ok o3)
    (inv : Obj) (K : Obj → Except Unit Obj) :
    (processGroup "databases" databasesVars children inv >>= K) =
      applyPlans inv o3.toList >>= K := by
  rw [processGroup_eq, h3, ok_bind]
  cases o3 with
  | none => simp [Option.toList, applyPlans_nil, pure_eq_ok, ok_bind]
  | some p =>
    show applyPlan inv p >>= K = _
    simp only [Option.toList, applyPlans_cons, applyPlans_nil, bind_assoc]
    apply bind_congr_fun
    intro t
    rw [ok_bind]

theorem chain2 {children : Json} {o2 o3 : Option Plan}
    (h2 : groupPlan "appservers" appserversVarsPre children = Except.ok o2)
    (h3 : groupPlan "databases" databasesVars children = Except.ok o3)
    (inv : Obj) (K : Obj → Except Unit Obj) :
    (processGroup "appservers" appserversVarsPre children inv >>= fun i2 =>
      processGroup "databases" databasesVars children i2 >>= K) =
      applyPlans inv (o2.toList ++ o3.toList) >>= K := by
  rw [processGroup_eq, h2, ok_bind]
  cases o2 with
  | none =>
    show processGroup "databases" databasesVars children inv >>= K = _
    rw [chain1 h3 inv K]
    rfl
  | some p =>
    show applyPlan inv p >>= _ = _
    simp only [Option.toList, List.cons_append, applyPlans_cons, bind_assoc]
    apply bind_congr_fun
    intro t
    exact chain1 h3 t K

theorem chain3 {children : Json} {o1 o2 o3 : Option Plan}
    (h1 : groupPlan "webservers" webserversVarsPre children = Except.ok o1)
    (h2 : groupPlan "appservers" appserversVarsPre children = Except.ok o2)
    (h3 : groupPlan "databases" databasesVars children = Except.ok o3)
    (inv : Obj) (K : Obj → Except Unit Obj) :
    (processGroup "webservers" webserversVarsPre children inv >>= fun i1 =>
      processGroup "appservers" appserversVarsPre children i1 >>= fun i2 =>
      processGroup "databases" databasesVars children i2 >>= K) =
      applyPlans inv (o1.toList ++ o2.toList ++ o3.toList) >>= K := by
  rw [processGroup_eq, h1, ok_bind]
  cases o1 with
  | none =>
    show (processGroup "appservers" appserversVarsPre children inv >>= fun i2 =>
      processGroup "databases" databasesVars children i2 >>= K) = _
    rw [chain2 h2 h3 inv K]
    rfl
  | some p =>
    show applyPlan inv p >>= _ = _
    simp only [Option.toList, List.cons_append, applyPlans_cons, bind_assoc]
    apply bind_congr_fun
    intro t
    exact chain2 h2 h3 t K

/-- The preferred path under explicit plan results. -/
theorem parse_pref_plans_ok {loads : String → Option Json} {tf : Obj}
    {entry rawData idata allv children : Json} {o1 o2 o3 : Option Plan}
    {av : Option Json} (inv : Obj)
    (hen : dictGet? tf "ansible_inventory" = some entry)
    (hraw : pySubscript entry "value" = Except.ok rawData)
    (hdec : pyDecode loads rawData = Except.ok idata)
    (hb1 : pyContains idata "all" = Except.ok true)
    (hallv : pySubscript idata "all" = Except.ok allv)
    (hb2 : pyContains allv "children" = Except.ok true)
    (hch : pySubscript allv "children" = Except.ok children)
    (h1 : groupPlan "webservers" webserversVarsPre children = Except.ok o1)
    (h2 : groupPlan "appservers" appserversVarsPre children = Except.ok o2)
    (h3 : groupPlan "databases" databasesVars children = Except.ok o3)
    (hav : prefAllVal allv = Except.ok av) :
    parse_ansible_inventory loads tf inv =
      (applyPlans inv (o1.toList ++ o2.toList ++ o3.toList)).map
        (fun t => allApply t av) := by
  unfold parse_ansible_inventory
  rw [hen]
  show (pySubscript entry "value" >>= _) = _
  rw [hraw, ok_bind, hdec, ok_bind, hb1, ok_bind, if_pos rfl, hallv, ok_bind,
    hb2, ok_bind, if_pos rfl, hch, ok_bind]
  rw [chain3 h1 h2 h3 inv]
  rw [except_map_eq_bind]
  apply bind_congr_fun
  intro t
  unfold prefAllVal at hav
  cases hb3 : pyContains allv "vars" with
  | error e => rw [hb3] at hav; cases hav
  | ok b3 =>
  rw [hb3] at hav
  rw [ok_bind] at hav ⊢
  cases b3 with
  | false =>
    rw [if_neg (by simp)] at hav ⊢
    rw [pure_eq_ok] at hav
    cases hav
    rfl
  | true =>
    rw [if_pos rfl] at hav ⊢
    cases hvv : pySubscript allv "vars" with
    | error e => rw [hvv] at hav; cases hav
    | ok vv =>
    rw [hvv] at hav
    rw [ok_bind, pure_eq_ok] at hav ⊢
    cases hav
    rfl

/-- Preferred path, designated entry present but no top-level `all` key
(condition at line 51 fails on its first conjunct): nothing is written. -/
theorem parse_pref_noop_b1 {loads : String → Option Json} {tf : Obj}
    {entry rawData idata : Json} (inv : Obj)
    (hen : dictGet? tf "ansible_inventory" = some entry)
    (hraw : pySubscript entry "value" = Except.ok rawData)
    (hdec : pyDecode loads rawData = Except.ok idata)
    (hb1 : pyContains idata "all" = Except.ok false) :
    parse_ansible_inventory loads tf inv = Except.ok inv := by
  unfold parse_ansible_inventory
  rw [hen]
  show (pySubscript entry "value" >>= _) = _
  rw [hraw, ok_bind, hdec, ok_bind, hb1, ok_bind, if_neg (by simp), pure_eq_ok]

/-- Preferred path, `all` present but without a `children` entry (condition
at line 51 fails on its second conjunct): nothing is written. -/
theorem parse_pref_noop_b2 {loads : String → Option Json} {tf : Obj}
    {entry rawData idata allv : Json} (inv : Obj)
    (hen : dictGet? tf "ansible_inventory" = some entry)
    (hraw : pySubscript entry "value" = Except.ok rawData)
    (hdec : pyDecode loads rawData = Except.ok idata)
    (hb1 : pyContains idata "all" = Except.ok true)
    (hallv : pySubscript idata "all" = Except.ok allv)
    (hb2 : pyContains allv "children" = Except.ok false) :
    parse_ansible_inventory loads tf inv = Except.ok inv := by
  unfold parse_ansible_inventory
  rw [hen]
  show (pySubscript entry "value" >>= _) = _
  rw [hraw, ok_bind, hdec, ok_bind, hb1, ok_bind, if_pos rfl, hallv, ok_bind,
    hb2, ok_bind, if_neg (by simp), pure_eq_ok]

theorem chain_err_g1 {children : Json} (inv : Obj) (K : Obj → Except Unit Obj)
    (h1 : groupPlan "webservers" webserversVarsPre children = Except.error ()) :
    (processGroup "webservers" webserversVarsPre children inv >>= fun i1 =>
      processGroup "appservers" appserversVarsPre children i1 >>= fun i2 =>
      processGroup "databases" databasesVars children i2 >>= K) =
      Except.error () := by
  rw [processGroup_eq, h1, error_bind, error_bind]

theorem chain_err_g2 {children : Json} (inv : Obj) (K : Obj → Except Unit Obj)
    (h2 : groupPlan "appservers" appserversVarsPre children = Except.error ()) :
    (processGroup "webservers" webserversVarsPre children inv >>= fun i1 =>
      processGroup "appservers" appserversVarsPre children i1 >>= fun i2 =>
      processGroup "databases" databasesVars children i2 >>= K) =
      Except.error () := by
  apply bind_error_fun
  intro i1
  rw [processGroup_eq, h2, error_bind, error_bind]

theorem chain_err_g3 {children : Json} (inv : Obj) (K : Obj → Except Unit Obj)
    (h3 : groupPlan "databases" databasesVars children = Except.error ()) :
    (processGroup "webservers" webserversVarsPre children inv >>= fun i1 =>
      processGroup "appservers" appserversVarsPre children i1 >>= fun i2 =>
      processGroup "databases" databasesVars children i2 >>= K) =
      Except.error () := by
  apply bind_error_fun
  intro i1
  apply bind_error_fun
  intro i2
  rw [processGroup_eq, h3, error_bind, error_bind]

theorem chain_err_k {children : Json} (inv : Obj) {K : Obj → Except Unit Obj}
    (hK : ∀ t, K t = Except.error ()) :
    (processGroup "webservers" webserversVarsPre children inv >>= fun i1 =>
      processGroup "appservers" appserversVarsPre children i1 >>= fun i2 =>
      processGroup "databases" databasesVars children i2 >>= K) =
      Except.error () := by
  apply bind_error_fun
  intro i1
  apply bind_error_fun
  intro i2
  apply bind_error_fun
  intro i3
  exact hK i3

/-- A successful preferred-path run determines its intermediate computations. -/
theorem parse_pref_extract {loads : String → Option Json} {tf : Obj}
    {entry : Json} {inv s' : Obj}
    (hen : dictGet? tf "ansible_inventory" = some entry)
    (h : parse_ansible_inventory loads tf inv = Except.ok s') :
    ∃ rawData idata b1, pySubscript entry "value" = Except.ok rawData ∧
      pyDecode loads rawData = Except.ok idata ∧
      pyContains idata "all" = Except.ok b1 ∧
      ((b1 = false ∧ s' = inv) ∨
       (b1 = true ∧ ∃ allv b2, pySubscript idata "all" = Except.ok allv ∧
         pyContains allv "children" = Except.ok b2 ∧
         ((b2 = false ∧ s' = inv) ∨
          (b2 = true ∧ ∃ children o1 o2 o3 av,
            pySubscript allv "children" = Except.ok children ∧
            groupPlan "webservers" webserversVarsPre children = Except.ok o1 ∧
            groupPlan "appservers" appserversVarsPre children = Except.ok o2 ∧
            groupPlan "databases" databasesVars children = Except.ok o3 ∧
            prefAllVal allv = Except.ok av)))) := by
  unfold parse_ansible_inventory at h
  rw [hen] at h
  have h' : (pySubscript entry "value" >>= fun rawData =>
      pyDecode loads rawData >>= fun inventoryData =>
      pyContains inventoryData "all" >>= fun b1 =>
      if b1 then do
        let allv ← pySubscript inventoryData "all"
        let b2 ← pyContains allv "children"
        if b2 then do
          let children ← pySubscript allv "children"
          let inv ← processGroup "webservers" webserversVarsPre children inv
          let inv ← processGroup "appservers" appserversVarsPre children inv
          let inv ← processGroup "databases" databasesVars children inv
          let b3 ← pyContains allv "vars"
          if b3 then do
            let v ← pySubscript allv "vars"
            pure (dictSet inv "all" (Json.obj [("vars", v)]))
          else pure inv
        else pure inv
      else pure inv) = Except.ok s' := h
  clear h
  cases hraw : pySubscript entry "value" with
  | error e => cases e; rw [hraw, error_bind] at h'; cases h'
  | ok rawData =>
  rw [hraw, ok_bind] at h'
  cases hdec : pyDecode loads rawData with
  | error e => cases e; rw [hdec, error_bind] at h'; cases h'
  | ok idata =>
  rw [hdec, ok_bind] at h'
  cases hb1 : pyContains idata "all" with
  | error e => cases e; rw [hb1, error_bind] at h'; cases h'
  | ok b1 =>
  rw [hb1, ok_bind] at h'
  refine ⟨rawData, idata, b1, rfl, hdec, hb1, ?_⟩
  cases b1 with
  | false =>
    rw [if_neg (by simp), pure_eq_ok] at h'
    exact Or.inl ⟨rfl, (Except.ok.inj h').symm⟩
  | true =>
  rw [if_pos rfl] at h'
  refine Or.inr ⟨rfl, ?_⟩
  cases hallv : pySubscript idata "all" with
  | error e => cases e; rw [hallv, error_bind] at h'; cases h'
  | ok allv =>
  rw [hallv, ok_bind] at h'
  cases hb2 : pyContains allv "children" with
  | error e => cases e; rw [hb2, error_bind] at h'; cases h'
  | ok b2 =>
  rw [hb2, ok_bind] at h'
  refine ⟨allv, b2, rfl, hb2, ?_⟩
  cases b2 with
  | false =>
    rw [if_neg (by simp), pure_eq_ok] at h'
    exact Or.inl ⟨rfl, (Except.ok.inj h').symm⟩
  | true =>
  rw [if_pos rfl] at h'
  refine Or.inr ⟨rfl, ?_⟩
  cases hch : pySubscript allv "children" with
  | error e => cases e; rw [hch, error_bind] at h'; cases h'
  | ok children =>
  rw [hch, ok_bind] at h'
  cases h1 : groupPlan "webservers" webserversVarsPre children with
  | error e => cases e; rw [chain_err_g1 inv _ h1] at h'; cases h'
  | ok o1 =>
  cases h2 : groupPlan "appservers" appserversVarsPre children with
  | error e => cases e; rw [chain_err_g2 inv _ h2] at h'; cases h'
  | ok o2 =>
  cases h3 : groupPlan "databases" databasesVars children with
  | error e => cases e; rw [chain_err_g3 inv _ h3] at h'; cases h'
  | ok o3 =>
  cases hav : prefAllVal allv with
  | error e =>
    cases e
    unfold prefAllVal at hav
    have hKerr : ∀ t : Obj, (pyContains allv "vars" >>= fun b3 =>
        if b3 then do
          let v ← pySubscript allv "vars"
          pure (dictSet t "all" (Json.obj [("vars", v)]))
        else pure t) = Except.error () := by
      intro t
      cases hb3 : pyContains allv "vars" with
      | error e => cases e; rfl
      | ok b3 =>
      rw [hb3] at hav
      rw [ok_bind] at hav ⊢
      cases b3 with
      | false => rw [if_neg (by simp), pure_eq_ok] at hav; cases hav
      | true =>
        rw [if_pos rfl] at hav ⊢
        cases hvv : pySubscript allv "vars" with
        | error e => cases e; rfl
        | ok vv =>
          rw [hvv] at hav
          rw [ok_bind, pure_eq_ok] at hav
          cases hav
    rw [chain_err_k inv hKerr] at h'
    cases h'
  | ok av => exact ⟨children, o1, o2, o3, av, rfl, h1, h2, h3, rfl⟩

theorem groupPlan_some {name : String} {gvars : Obj} {children : Json} {p : Plan}
    (h : groupPlan name gvars children = Except.ok (some p)) :
    p.1 = name ∧ p.2.1 = groupEntry (dictKeys p.2.2) gvars := by
  unfold groupPlan at h
  cases hc1 : pyContains children name with
  | error e => cases e; rw [hc1, error_bind] at h; cases h
  | ok b1 =>
  rw [hc1, ok_bind] at h
  cases b1 with
  | false => rw [if_neg (by simp), pure_eq_ok] at h; cases h
  | true =>
  rw [if_pos rfl] at h
  cases hc2 : pySubscript children name with
  | error e => cases e; rw [hc2, error_bind] at h; cases h
  | ok grp =>
  rw [hc2, ok_bind] at h
  cases hc3 : pyContains grp "hosts" with
  | error e => cases e; rw [hc3, error_bind] at h; cases h
  | ok b2 =>
  rw [hc3, ok_bind] at h
  cases b2 with
  | false => rw [if_neg (by simp), pure_eq_ok] at h; cases h
  | true =>
  rw [if_pos rfl] at h
  cases hc4 : pySubscript grp "hosts" with
  | error e => cases e; rw [hc4, error_bind] at h; cases h
  | ok hostsJ =>
  rw [hc4, ok_bind] at h
  cases hostsJ with
  | obj o =>
    rw [show pyKeys (Json.obj o) = Except.ok (o.map Prod.fst) from rfl, ok_bind,
      show pyItems (Json.obj o) = Except.ok o from rfl, ok_bind, pure_eq_ok] at h
    cases h
    exact ⟨rfl, rfl⟩
  | null => rw [show pyKeys Json.null = Except.error () from rfl, error_bind] at h; cases h
  | bool b => rw [show pyKeys (Json.bool b) = Except.error () from rfl, error_bind] at h; cases h
  | num n => rw [show pyKeys (Json.num n) = Except.error () from rfl, error_bind] at h; cases h
  | str s => rw [show pyKeys (Json.str s) = Except.error () from rfl, error_bind] at h; cases h
  | arr xs => rw [show pyKeys (Json.arr xs) = Except.error () from rfl, error_bind] at h; cases h

theorem webPlan_shape {tf : Obj} {pw : List Plan} (h : webPlan tf = Except.ok pw) :
    pw = [] ∨ ∃ ips, pw = [("webservers",
      groupEntry (synthNames "web-" ips.length)
        [("ansible_user", Json.str "ubuntu"), ("server_type", Json.str "webserver")],
      synthW "web-" ips)] := by
  unfold webPlan at h
  cases hg : getValue tf "web_instance_public_ips" (Json.arr []) with
  | error e => cases e; rw [hg, error_bind] at h; cases h
  | ok w =>
  rw [hg, ok_bind] at h
  by_cases ht : pyTruthy w = true
  · rw [if_pos ht] at h
    cases hi : pyIter w with
    | error e => cases e; rw [hi, error_bind] at h; cases h
    | ok ips =>
      rw [hi, ok_bind, pure_eq_ok] at h
      cases h
      exact Or.inr ⟨ips, rfl⟩
  · rw [if_neg ht, pure_eq_ok] at h
    cases h
    exact Or.inl rfl

theorem appPlan_shape {tf : Obj} {pa : List Plan} (h : appPlan tf = Except.ok pa) :
    pa = [] ∨ ∃ ips, pa = [("appservers",
      groupEntry (synthNames "app-" ips.length)
        [("ansible_user", Json.str "ubuntu"), ("server_type", Json.str "appserver")],
      synthW "app-" ips)] := by
  unfold appPlan at h
  cases hg : getValue tf "app_instance_private_ips" (Json.arr []) with
  | error e => cases e; rw [hg, error_bind] at h; cases h
  | ok a =>
  rw [hg, ok_bind] at h
  by_cases ht : pyTruthy a = true
  · rw [if_pos ht] at h
    cases hi : pyIter a with
    | error e => cases e; rw [hi, error_bind] at h; cases h
    | ok ips =>
      rw [hi, ok_bind, pure_eq_ok] at h
      cases h
      exact Or.inr ⟨ips, rfl⟩
  · rw [if_neg ht, pure_eq_ok] at h
    cases h
    exact Or.inl rfl

theorem dbPlan_shape {tf : Obj} {pd : List Plan} (h : dbPlan tf = Except.ok pd) :
    pd = [] ∨ ∃ hostAddr engine port, pd = [("databases",
      groupEntry ["database"] databasesVars,
      [("database", Json.obj [("ansible_host", Json.str hostAddr),
        ("db_engine", engine), ("db_port", port)])])] := by
  unfold dbPlan at h
  cases hg : getValue tf "database_endpoint" Json.null with
  | error e => cases e; rw [hg, error_bind] at h; cases h
  | ok dbv =>
  rw [hg, ok_bind] at h
  by_cases ht : pyTruthy dbv = true
  · rw [if_pos ht] at h
    cases hsp : pySplitHead dbv with
    | error e => cases e; rw [hsp, error_bind] at h; cases h
    | ok hostAddr =>
    rw [hsp, ok_bind] at h
    cases hen : getValue tf "database_engine" (Json.str "postgres") with
    | error e => cases e; rw [hen, error_bind] at h; cases h
    | ok engine =>
    rw [hen, ok_bind] at h
    cases hpo : getValue tf "database_port" (Json.num 5432) with
    | error e => cases e; rw [hpo, error_bind] at h; cases h
    | ok port =>
    rw [hpo, ok_bind, pure_eq_ok] at h
    cases h
    exact Or.inr ⟨hostAddr, engine, port, rfl⟩
  · rw [if_neg ht, pure_eq_ok] at h
    cases h
    exact Or.inl rfl

/-- Key discipline of the fallback plans: group keys are among the three
fixed names, pairwise distinct, never `_meta` or `all`. -/
theorem fb_plans_keys {tf : Obj} {pw pa pd : List Plan}
    (hw : webPlan tf = Except.ok pw) (ha : appPlan tf = Except.ok pa)
    (hd : dbPlan tf = Except.ok pd) :
    (∀ p ∈ pw ++ pa ++ pd, p.1 ≠ "_meta" ∧ p.1 ≠ "all") ∧
      ((pw ++ pa ++ pd).map (fun q => q.1)).Nodup := by
  have hsub : List.Sublist ((pw ++ pa ++ pd).map (fun q => q.1))
      ["webservers", "appservers", "databases"] := by
    rcases webPlan_shape hw with hpw | ⟨ipsw, hpw⟩ <;>
      rcases appPlan_shape ha with hpa | ⟨ipsa, hpa⟩ <;>
      rcases dbPlan_shape hd with hpd | ⟨ad, ed, pod, hpd⟩ <;>
      subst hpw <;> subst hpa <;> subst hpd <;>
      simp only [List.map_cons, List.map_nil, List.nil_append, List.cons_append,
        List.append_nil] <;>
      decide
  constructor
  · intro p hp
    have hmem : p.1 ∈ ["webservers", "appservers", "databases"] :=
      hsub.subset (List.mem_map.mpr ⟨p, hp, rfl⟩)
    simp only [List.mem_cons, List.mem_singleton, List.not_mem_nil, or_false] at hmem
    rcases hmem with h | h | h <;> rw [h] <;> exact ⟨by decide, by decide⟩
  · exact (by decide : (["webservers", "appservers", "databases"] :
      List String).Nodup).sublist hsub

/-- Key discipline of the preferred-path plans. -/
theorem pref_plans_keys {children : Json} {o1 o2 o3 : Option Plan}
    (h1 : groupPlan "webservers" webserversVarsPre children = Except.ok o1)
    (h2 : groupPlan "appservers" appserversVarsPre children = Except.ok o2)
    (h3 : groupPlan "databases" databasesVars children = Except.ok o3) :
    (∀ p ∈ o1.toList ++ o2.toList ++ o3.toList, p.1 ≠ "_meta" ∧ p.1 ≠ "all") ∧
      ((o1.toList ++ o2.toList ++ o3.toList).map (fun q => q.1)).Nodup := by
  have hsub : List.Sublist ((o1.toList ++ o2.toList ++ o3.toList).map (fun q => q.1))
      ["webservers", "appservers", "databases"] := by
    cases o1 <;> cases o2 <;> cases o3 <;>
      simp only [Option.toList, List.map_cons, List.map_nil, List.nil_append,
        List.cons_append, List.append_nil] <;>
      (try rw [(groupPlan_some h1).1]) <;>
      (try rw [(groupPlan_some h2).1]) <;>
      (try rw [(groupPlan_some h3).1]) <;>
      decide
  constructor
  · intro p hp
    have hmem : p.1 ∈ ["webservers", "appservers", "databases"] :=
      hsub.subset (List.mem_map.mpr ⟨p, hp, rfl⟩)
    simp only [List.mem_cons, List.mem_singleton, List.not_mem_nil, or_false] at hmem
    rcases hmem with h | h | h <;> rw [h] <;> exact ⟨by decide, by decide⟩
  · exact (by decide : (["webservers", "appservers", "databases"] :
      List String).Nodup).sublist hsub

theorem nodup_hostvars_init : (dictKeys (hostvarsOf initInventory)).Nodup := by
  decide

/-- Second `get_inventory` call on the same object reproduces the state of
the first. -/
theorem get_inventory_idem {loads : String → Option Json} {tf : Obj} {s₁ : Obj}
    (h : get_inventory loads tf initInventory = Except.ok s₁) :
    get_inventory loads tf s₁ = Except.ok s₁ := by
  unfold get_inventory at h ⊢
  by_cases hemp : tf.isEmpty = true
  · rw [if_pos hemp] at h ⊢
    exact h
  · rw [if_neg hemp] at h ⊢
    cases hen : dictGet? tf "ansible_inventory" with
    | some entry =>
      obtain ⟨rawData, idata, b1, hraw, hdec, hb1, hrest⟩ := parse_pref_extract hen h
      rcases hrest with ⟨hb1f, hs⟩ | ⟨hb1t, allv, b2, hallv, hb2, hrest⟩
      · subst hb1f
        subst hs
        exact parse_pref_noop_b1 _ hen hraw hdec hb1
      · subst hb1t
        rcases hrest with ⟨hb2f, hs⟩ |
          ⟨hb2t, children, o1, o2, o3, av, hch, h1, h2, h3, hav⟩
        · subst hb2f
          subst hs
          exact parse_pref_noop_b2 _ hen hraw hdec hb1 hallv hb2
        · subst hb2t
          rw [parse_pref_plans_ok initInventory hen hraw hdec hb1 hallv hb2 hch
            h1 h2 h3 hav] at h
          have hkeys := pref_plans_keys h1 h2 h3
          rw [parse_pref_plans_ok s₁ hen hraw hdec hb1 hallv hb2 hch
            h1 h2 h3 hav]
          exact applyAll_idem metaWF_initInventory nodup_hostvars_init
            hkeys.1 hkeys.2 h
    | none =>
      unfold parse_ansible_inventory at h ⊢
      rw [hen] at h ⊢
      obtain ⟨pw, pa, pd, av, hw, ha, hd, hv⟩ := parse_fb_extract h
      rw [parse_plans_ok initInventory hw ha hd hv] at h
      have hkeys := fb_plans_keys hw ha hd
      rw [parse_plans_ok s₁ hw ha hd hv]
      exact applyAll_idem metaWF_initInventory nodup_hostvars_init
        hkeys.1 hkeys.2 h

/-! ### Injectivity of decimal naturals printing (for `f"web-{i+1}"` names) -/

theorem toDigitsCore_shift (fuel : Nat) : ∀ (n : Nat) (ds : List Char),
    Nat.toDigitsCore 10 fuel n ds = Nat.toDigitsCore 10 fuel n [] ++ ds := by
  induction fuel with
  | zero => intro n ds; rfl
  | succ f ih =>
    intro n ds
    unfold Nat.toDigitsCore
    by_cases h : n / 10 = 0
    · simp [h]
    · simp only [h, if_false]
      rw [ih (n / 10) [Nat.digitChar (n % 10)], ih (n / 10) (Nat.digitChar (n % 10) :: ds),
        List.append_assoc]
      rfl

theorem toDigitsCore_fuel : ∀ (f₁ f₂ n : Nat), n < f₁ → n < f₂ →
    Nat.toDigitsCore 10 f₁ n [] = Nat.toDigitsCore 10 f₂ n [] := by
  intro f₁
  induction f₁ with
  | zero => intro f₂ n h1; omega
  | succ f ih =>
    intro f₂ n h1 h2
    cases f₂ with
    | zero => omega
    | succ f' =>
      unfold Nat.toDigitsCore
      by_cases h : n / 10 = 0
      · simp [h]
      · simp only [h, if_false]
        rw [toDigitsCore_shift, toDigitsCore_shift f']
        have hd : n / 10 < n := Nat.div_lt_self (by omega) (by omega)
        rw [ih f' (n / 10) (by omega) (by omega)]

theorem toDigits_step (n : Nat) (h : ¬ n / 10 = 0) :
    Nat.toDigits 10 n = Nat.toDigits 10 (n / 10) ++ [Nat.digitChar (n % 10)] := by
  unfold Nat.toDigits
  show Nat.toDigitsCore 10 (n + 1) n [] = _
  unfold Nat.toDigitsCore
  simp only [h, if_false]
  rw [toDigitsCore_shift]
  have hd : n / 10 < n := Nat.div_lt_self (by omega) (by omega)
  rw [toDigitsCore_fuel n (n / 10 + 1) (n / 10) (by omega) (by omega)]
  rfl

theorem toDigits_small (n : Nat) (h : n / 10 = 0) :
    Nat.toDigits 10 n = [Nat.digitChar n] := by
  unfold Nat.toDigits
  show Nat.toDigitsCore 10 (n + 1) n [] = _
  unfold Nat.toDigitsCore
  simp only [h, if_true]
  have : n % 10 = n := by omega
  rw [this]

theorem toDigits_ne_nil (n : Nat) : Nat.toDigits 10 n ≠ [] := by
  by_cases h : n / 10 = 0
  · rw [toDigits_small n h]; simp
  · rw [toDigits_step n h]; simp

theorem digitChar_inj_lt {a b : Nat} (ha : a < 10) (hb : b < 10)
    (h : Nat.digitChar a = Nat.digitChar b) : a = b := by
  have : ∀ x y : Fin 10, Nat.digitChar x.val = Nat.digitChar y.val → x = y := by decide
  have hfin := this ⟨a, ha⟩ ⟨b, hb⟩ h
  exact congrArg Fin.val hfin

theorem toDigits_inj : ∀ (n m : Nat), Nat.toDigits 10 n = Nat.toDigits 10 m → n = m := by
  intro n
  induction n using Nat.strong_induction_on with
  | _ n ih =>
    intro m h
    by_cases hn : n / 10 = 0
    · by_cases hm : m / 10 = 0
      · rw [toDigits_small n hn, toDigits_small m hm] at h
        exact digitChar_inj_lt (by omega) (by omega) (List.cons.inj h).1
      · rw [toDigits_small n hn, toDigits_step m hm] at h
        have := congrArg List.length h
        simp at this
        have := toDigits_ne_nil (m / 10)
        cases hmt : Nat.toDigits 10 (m / 10) with
        | nil => exact absurd hmt this
        | cons c cs => rw [hmt] at h; simp at h
    · by_cases hm : m / 10 = 0
      · rw [toDigits_step n hn, toDigits_small m hm] at h
        have := toDigits_ne_nil (n / 10)
        cases hnt : Nat.toDigits 10 (n / 10) with
        | nil => exact absurd hnt this
        | cons c cs => rw [hnt] at h; simp at h
      · rw [toDigits_step n hn, toDigits_step m hm] at h
        have hlen : (Nat.toDigits 10 (n / 10)).length = (Nat.toDigits 10 (m / 10)).length := by
          have := congrArg List.length h
          simp at this
          omega
        have hparts := List.append_inj h hlen
        have hdiv : n / 10 = m / 10 :=
          ih (n / 10) (Nat.div_lt_self (by omega) (by omega)) (m / 10) hparts.1
        have hmod : n % 10 = m % 10 := by
          have := (List.cons.inj hparts.2).1
          exact digitChar_inj_lt (by omega) (by omega) this
        omega

theorem natToString_inj {n m : Nat} (h : toString n = toString m) : n = m := by
  have hn : toString n = (Nat.toDigits 10 n).asString := rfl
  have hm : toString m = (Nat.toDigits 10 m).asString := rfl
  rw [hn, hm] at h
  exact toDigits_inj n m (congrArg String.data h)

theorem synthName_inj (pre : String) {i j : Nat}
    (h : pre ++ toString (i+1) = pre ++ toString (j+1)) : i = j := by
  have hdata := congrArg String.data h
  rw [String.data_append, String.data_append] at hdata
  have := List.append_cancel_left hdata
  have hstr : toString (i+1) = toString (j+1) := String.ext this
  have := natToString_inj hstr
  omega

theorem nodup_synthNames (pre : String) (n : Nat) : (synthNames pre n).Nodup := by
  unfold synthNames
  refine List.Nodup.map ?_ (List.nodup_range n)
  intro i j h
  exact synthName_inj pre h

theorem dictKeys_synthW (pre : String) (ips : List Json) :
    dictKeys (synthW pre ips) = synthNames pre ips.length := by
  unfold dictKeys synthW synthNames
  rw [List.map_map]
  have : (List.range ips.length) = ips.enum.map Prod.fst := (List.enum_map_fst ips).symm
  rw [this, List.map_map]
  rfl

theorem mem_synthW {pre : String} {ips : List Json} {i : Nat} (hi : i < ips.length) :
    (pre ++ toString (i+1),
      Json.obj [("ansible_host", ips.get ⟨i, hi⟩), ("ansible_user", Json.str "ubuntu")])
      ∈ synthW pre ips := by
  unfold synthW
  apply List.mem_map.mpr
  refine ⟨(i, ips.get ⟨i, hi⟩), ?_, rfl⟩
  have hlen : i < ips.enum.length := by rw [List.enum_length]; exact hi
  have := List.getElem_enum ips i hlen
  rw [show ips.enum[i] = ips.enum.get ⟨i, hlen⟩ from rfl] at this
  rw [show ips[i] = ips.get ⟨i, hi⟩ from rfl] at this
  exact this ▸ List.get_mem ips.enum i hlen

theorem dictGet?_fold_of_mem_nodup {W : Obj} {k : String} {v : Json} (d : Obj)
    (hnd : (dictKeys W).Nodup) (hmem : (k, v) ∈ W) :
    dictGet? (dictSetFold d W) k = some v := by
  induction W generalizing d with
  | nil => simp at hmem
  | cons p rest ih =>
    obtain ⟨k₁, v₁⟩ := p
    rw [dictKeys_cons, List.nodup_cons] at hnd
    rcases List.mem_cons.mp hmem with h | h
    · cases h
      rw [dictSetFold_cons, dictGet?_dictSetFold_not_mem _ hnd.1,
        dictGet?_dictSet_self]
    · have hne : k ≠ k₁ := by
        intro he
        exact hnd.1 (he ▸ (List.mem_map.mpr ⟨(k, v), h, rfl⟩ : k ∈ dictKeys rest))
      rw [dictSetFold_cons]
      exact ih _ hnd.2 h

theorem web_ne_app (s t : String) : "web-" ++ s ≠ "app-" ++ t := by
  intro h
  have := congrArg String.data h
  rw [String.data_append, String.data_append] at this
  simp at this

theorem web_ne_database (s : String) : "web-" ++ s ≠ "database" := by
  intro h
  have := congrArg String.data h
  rw [String.data_append] at this
  simp at this

theorem app_ne_database (s : String) : "app-" ++ s ≠ "database" := by
  intro h
  have := congrArg String.data h
  rw [String.data_append] at this
  simp at this

theorem hostvarsOf_initInventory : hostvarsOf initInventory = [] := rfl

theorem dictGet?_initInventory_ne {g : String} (h : g ≠ "_meta") :
    dictGet? initInventory g = none := by
  rw [show dictGet? initInventory g =
    (if "_meta" = g then some (Json.obj [("hostvars", Json.obj [])]) else none) from rfl,
    if_neg (fun hh => h hh.symm)]

theorem filterMap_str (names : List String) :
    (names.map Json.str).filterMap
      (fun j => match j with | Json.str n => some n | _ => none) = names := by
  induction names with
  | nil => rfl
  | cons n rest ih => simp [List.filterMap_cons, ih]

theorem dictKeys_append (a b : Obj) : dictKeys (a ++ b) = dictKeys a ++ dictKeys b :=
  List.map_append _ _ _

theorem mem_dictKeys_flatW {ps : List Plan} {p : Plan} {k : String}
    (hp : p ∈ ps) (hk : k ∈ dictKeys p.2.2) : k ∈ dictKeys (flatW ps) := by
  induction ps with
  | nil => simp at hp
  | cons q rest ih =>
    show k ∈ dictKeys (q.2.2 ++ flatW rest)
    rw [dictKeys_append]
    rcases List.mem_cons.mp hp with h | h
    · subst h
      exact List.mem_append.mpr (Or.inl hk)
    · exact List.mem_append.mpr (Or.inr (ih h))

/-- Every successful `get_inventory` run from the fresh object yields the
degraded document, the untouched initial inventory, or the normal form of a
write plan whose group entries list exactly the hosts they write. -/
theorem get_inventory_form {loads : String → Option Json} {tf : Obj} {inv' : Obj}
    (h : get_inventory loads tf initInventory = Except.ok inv') :
    inv' = emptyInventory ∨ inv' = initInventory ∨
    ∃ ps av, (∀ p ∈ ps, p.1 ≠ "_meta" ∧ p.1 ≠ "all") ∧
      ((ps.map (fun q => q.1)).Nodup) ∧
      (∀ p ∈ ps, ∃ gv, p.2.1 = groupEntry (dictKeys p.2.2) gv) ∧
      inv' = allApply (topApply (updHostvars initInventory
        (dictSetFold [] (flatW ps))) ps) av := by
  unfold get_inventory at h
  by_cases hemp : tf.isEmpty = true
  · rw [if_pos hemp] at h
    exact Or.inl (Except.ok.inj h).symm
  · rw [if_neg hemp] at h
    cases hen : dictGet? tf "ansible_inventory" with
    | some entry =>
      obtain ⟨rawData, idata, b1, hraw, hdec, hb1, hrest⟩ := parse_pref_extract hen h
      rcases hrest with ⟨hb1f, hs⟩ | ⟨hb1t, allv, b2, hallv, hb2, hrest⟩
      · exact Or.inr (Or.inl hs)
      · rcases hrest with ⟨hb2f, hs⟩ |
          ⟨hb2t, children, o1, o2, o3, av, hch, h1, h2, h3, hav⟩
        · exact Or.inr (Or.inl hs)
        · subst hb1t
          subst hb2t
          refine Or.inr (Or.inr ⟨o1.toList ++ o2.toList ++ o3.toList, av,
            (pref_plans_keys h1 h2 h3).1, (pref_plans_keys h1 h2 h3).2, ?_, ?_⟩)
          · intro p hp
            rcases List.mem_append.mp hp with hp' | hp'
            · rcases List.mem_append.mp hp' with hp'' | hp''
              · cases o1 with
                | none => simp [Option.toList] at hp''
                | some q =>
                  simp [Option.toList] at hp''
                  subst hp''
                  exact ⟨webserversVarsPre, (groupPlan_some h1).2⟩
              · cases o2 with
                | none => simp [Option.toList] at hp''
                | some q =>
                  simp [Option.toList] at hp''
                  subst hp''
                  exact ⟨appserversVarsPre, (groupPlan_some h2).2⟩
            · cases o3 with
              | none => simp [Option.toList] at hp'
              | some q =>
                simp [Option.toList] at hp'
                subst hp'
                exact ⟨databasesVars, (groupPlan_some h3).2⟩
          · rw [parse_pref_plans_ok initInventory hen hraw hdec hb1 hallv hb2 hch
              h1 h2 h3 hav] at h
            rw [applyPlans_eq metaWF_initInventory
              (fun p hp => ((pref_plans_keys h1 h2 h3).1 p hp).1)] at h
            rw [except_map_ok, hostvarsOf_initInventory] at h
            exact (Except.ok.inj h).symm
    | none =>
      unfold parse_ansible_inventory at h
      rw [hen] at h
      obtain ⟨pw, pa, pd, av, hw, ha, hd, hv⟩ := parse_fb_extract h
      refine Or.inr (Or.inr ⟨pw ++ pa ++ pd, some av,
        (fb_plans_keys hw ha hd).1, (fb_plans_keys hw ha hd).2, ?_, ?_⟩)
      · intro p hp
        rcases List.mem_append.mp hp with hp' | hp'
        · rcases List.mem_append.mp hp' with hp'' | hp''
          · rcases webPlan_shape hw with hsh | ⟨ips, hsh⟩
            · subst hsh; simp at hp''
            · subst hsh
              simp at hp''
              subst hp''
              refine ⟨[("ansible_user", Json.str "ubuntu"),
                ("server_type", Json.str "webserver")], ?_⟩
              show groupEntry (synthNames "web-" ips.length) _ =
                groupEntry (dictKeys (synthW "web-" ips)) _
              rw [dictKeys_synthW]
          · rcases appPlan_shape ha with hsh | ⟨ips, hsh⟩
            · subst hsh; simp at hp''
            · subst hsh
              simp at hp''
              subst hp''
              refine ⟨[("ansible_user", Json.str "ubuntu"),
                ("server_type", Json.str "appserver")], ?_⟩
              show groupEntry (synthNames "app-" ips.length) _ =
                groupEntry (dictKeys (synthW "app-" ips)) _
              rw [dictKeys_synthW]
        · rcases dbPlan_shape hd with hsh | ⟨ad, ed, pod, hsh⟩
          · subst hsh; simp at hp'
          · subst hsh
            simp at hp'
            subst hp'
            exact ⟨databasesVars, rfl⟩
      · rw [parse_plans_ok initInventory hw ha hd hv] at h
        rw [applyPlans_eq metaWF_initInventory
          (fun p hp => ((fb_plans_keys hw ha hd).1 p hp).1)] at h
        rw [except_map_ok, hostvarsOf_initInventory] at h
        exact (Except.ok.inj h).symm

theorem dictGet?_emptyInventory_ne {g : String} (h1 : g ≠ "all") (h2 : g ≠ "_meta") :
    dictGet? emptyInventory g = none := by
  rw [show dictGet? emptyInventory g =
    (if "all" = g then some (Json.obj [("hosts", Json.arr []), ("vars", Json.obj [])])
     else if "_meta" = g then some (Json.obj [("hostvars", Json.obj [])])
     else none) from rfl,
    if_neg (fun hh => h1 hh.symm), if_neg (fun hh => h2 hh.symm)]

theorem groupHostNames_none {s : Obj} {g : String} (h : dictGet? s g = none) :
    groupHostNames s g = [] := by
  unfold groupHostNames
  rw [h]

theorem hostvarsOf_planform (ps : List Plan) (av : Option Json)
    (hks : ∀ p ∈ ps, p.1 ≠ "_meta") :
    hostvarsOf (allApply (topApply (updHostvars initInventory
      (dictSetFold [] (flatW ps))) ps) av) = dictSetFold [] (flatW ps) := by
  rw [hostvarsOf_allApply, hostvarsOf_topApply _ hks, hostvarsOf_updHostvars]

theorem metaWF_planform (ps : List Plan) (av : Option Json)
    (hks : ∀ p ∈ ps, p.1 ≠ "_meta") :
    MetaWF (allApply (topApply (updHostvars initInventory
      (dictSetFold [] (flatW ps))) ps) av) :=
  metaWF_allApply _ (metaWF_topApply _ hks (metaWF_updHostvars _ _))

theorem get_inventory_MetaWF {loads : String → Option Json} {tf : Obj} {inv' : Obj}
    (h : get_inventory loads tf initInventory = Except.ok inv') : MetaWF inv' := by
  rcases get_inventory_form h with he | hi | ⟨ps, av, hks, _, _, hform⟩
  · subst he
    exact ⟨[("hostvars", Json.obj [])], [], rfl, rfl⟩
  · subst hi
    exact metaWF_initInventory
  · subst hform
    exact metaWF_planform ps av (fun p hp => (hks p hp).1)

/-! ### Claim theorems -/

/-- C1: for the empty Snapshot (acquisition failed or the provisioning tool
produced nothing), `get_inventory` returns exactly the document
`{"all": {"hosts": [], "vars": {}}, "_meta": {"hostvars": {}}}`, whatever
the current inventory state and the behaviour of `json.loads`. -/
theorem C1_empty_snapshot_degraded (loads : String → Option Json) (inv : Obj) :
    get_inventory loads [] inv =
      Except.ok [("all", Json.obj [("hosts", Json.arr []), ("vars", Json.obj [])]),
        ("_meta", Json.obj [("hostvars", Json.obj [])])] := rfl

/-- C2: for every Snapshot (either path), every hostname in the `hosts`
list of any produced group (`webservers`, `appservers`, `databases`) is a
key of the produced `_meta.hostvars` mapping. -/
theorem C2_hosts_have_hostvars {loads : String → Option Json} {tf : Obj}
    {inv' : Obj} (hok : get_inventory loads tf initInventory = Except.ok inv')
    (g : String) (hg : g ∈ (["webservers", "appservers", "databases"] : List String))
    (hn : String) (hmem : hn ∈ groupHostNames inv' g) :
    (dictGet? (hostvarsOf inv') hn).isSome = true := by
  have hgne : g ≠ "_meta" ∧ g ≠ "all" := by
    simp only [List.mem_cons, List.not_mem_nil, or_false] at hg
    rcases hg with h | h | h <;> subst h <;> exact ⟨by decide, by decide⟩
  rcases get_inventory_form hok with he | hi | ⟨ps, av, hks, hndk, hgood, hform⟩
  · subst he
    rw [groupHostNames_none (dictGet?_emptyInventory_ne hgne.2 hgne.1)] at hmem
    simp at hmem
  · subst hi
    rw [groupHostNames_none (dictGet?_initInventory_ne hgne.1)] at hmem
    simp at hmem
  · subst hform
    by_cases hmemk : ∃ p ∈ ps, p.1 = g
    · obtain ⟨p, hp, hpk⟩ := hmemk
      have hget : dictGet? (allApply (topApply (updHostvars initInventory
          (dictSetFold [] (flatW ps))) ps) av) g = some p.2.1 := by
        rw [dictGet?_allApply_ne _ _ hgne.2, ← hpk,
          dictGet?_topApply_of_mem _ hndk hp]
      obtain ⟨gv, hgv⟩ := hgood p hp
      have hnames : groupHostNames (allApply (topApply (updHostvars initInventory
          (dictSetFold [] (flatW ps))) ps) av) g = dictKeys p.2.2 := by
        unfold groupHostNames
        rw [hget, hgv]
        show ((dictKeys p.2.2).map Json.str).filterMap
          (fun j => match j with | Json.str n => some n | _ => none) = dictKeys p.2.2
        exact filterMap_str _
      rw [hnames] at hmem
      rw [hostvarsOf_planform ps av (fun p hp => (hks p hp).1)]
      exact isSome_dictGet?_dictSetFold_of_mem _ (mem_dictKeys_flatW hp hmem)
    · push_neg at hmemk
      have hnone : dictGet? (allApply (topApply (updHostvars initInventory
          (dictSetFold [] (flatW ps))) ps) av) g = none := by
        rw [dictGet?_allApply_ne _ _ hgne.2, dictGet?_topApply_not_mem _ hmemk,
          dictGet?_updHostvars_ne _ _ hgne.1, dictGet?_initInventory_ne hgne.1]
      rw [groupHostNames_none hnone] at hmem
      simp at hmem

theorem get_host_eval {loads : String → Option Json} {tf s inv' : Obj}
    (hok : get_inventory loads tf s = Except.ok inv') {m hv : Obj}
    (h1 : dictGet? inv' "_meta" = some (Json.obj m))
    (h2 : dictGet? m "hostvars" = some (Json.obj hv)) (hostname : String) :
    get_host loads tf s hostname =
      Except.ok (dictGetD hv hostname (Json.obj [])) := by
  unfold get_host
  rw [hok]
  simp only [ok_bind]
  have e1 : dictGetD inv' "_meta" (Json.obj []) = Json.obj m := by
    rw [dictGetD, h1]
    rfl
  rw [e1]
  have e2 : dictGetD m "hostvars" (Json.obj []) = Json.obj hv := by
    rw [dictGetD, h2]
    rfl
  show (match dictGetD m "hostvars" (Json.obj []) with
    | Json.obj hvo => pure (dictGetD hvo hostname (Json.obj []))
    | _ => (Except.error () : Except Unit Json)) = _
  rw [e2]
  rfl

/-- C3: `get_host` returns the host's entry of the produced
`_meta.hostvars` mapping, and the empty mapping (without raising) for any
hostname not present there. -/
theorem C3_get_host_total {loads : String → Option Json} {tf : Obj}
    {inv' : Obj} (hok : get_inventory loads tf initInventory = Except.ok inv')
    (hostname : String) :
    (dictGet? (hostvarsOf inv') hostname = none →
      get_host loads tf initInventory hostname = Except.ok (Json.obj [])) ∧
    (∀ v, dictGet? (hostvarsOf inv') hostname = some v →
      get_host loads tf initInventory hostname = Except.ok v) := by
  obtain ⟨m, hv, h1, h2⟩ := get_inventory_MetaWF hok
  have hhv : hostvarsOf inv' = hv := hostvarsOf_eq h1 h2
  have hrun := get_host_eval hok h1 h2 hostname
  constructor
  · intro hnone
    rw [hhv] at hnone
    rw [hrun, dictGetD, hnone]
    rfl
  · intro v hsome
    rw [hhv] at hsome
    rw [hrun, dictGetD, hsome]
    rfl

/-- C4: when the designated `ansible_inventory` entry is present, the result
of the transformation depends only on that entry (the fallback entries are
never consulted); the fallback runs exactly when the entry is absent. -/
theorem C4_designated_entry_precedence :
    (∀ (loads : String → Option Json) (tf tf' s : Obj) (e : Json),
      dictGet? tf "ansible_inventory" = some e →
      dictGet? tf' "ansible_inventory" = some e →
      parse_ansible_inventory loads tf s = parse_ansible_inventory loads tf' s) ∧
    (∀ (loads : String → Option Json) (tf s : Obj),
      dictGet? tf "ansible_inventory" = none →
      parse_ansible_inventory loads tf s = parse_individual_outputs tf s) := by
  constructor
  · intro loads tf tf' s e h h'
    unfold parse_ansible_inventory
    rw [h, h']
  · intro loads tf s h
    unfold parse_ansible_inventory
    rw [h]

/-- C8: running the full transformation twice against an unchanged Snapshot
produces identical Inventory documents: a second `get_inventory` evaluation
(even on the same mutated object) reproduces the first result exactly. -/
theorem C8_list_idempotent {loads : String → Option Json} {tf : Obj} {s₁ : Obj}
    (h : get_inventory loads tf initInventory = Except.ok s₁) :
    get_inventory loads tf s₁ = Except.ok s₁ :=
  get_inventory_idem h

/-- A trivial `json.loads` model for concrete executions: no string decodes. -/
def loads0 : String → Option Json := fun _ => none

/-- A concrete fallback Snapshot with one web address. -/
def tfWeb : Obj :=
  [("web_instance_public_ips", Json.obj [("value", Json.arr [Json.str "1.2.3.4"])])]

/-- The Inventory produced from `tfWeb`. -/
def invWeb : Obj :=
  [("_meta", Json.obj [("hostvars", Json.obj
      [("web-1", Json.obj [("ansible_host", Json.str "1.2.3.4"),
        ("ansible_user", Json.str "ubuntu")])])]),
   ("webservers", Json.obj [("hosts", Json.arr [Json.str "web-1"]),
      ("vars", Json.obj [("ansible_user", Json.str "ubuntu"),
        ("server_type", Json.str "webserver")])]),
   ("all", Json.obj [("vars", Json.obj [("environment", Json.str "unknown"),
      ("project_name", Json.str "iac-solution"),
      ("aws_region", Json.str "us-west-2")])])]

/-- Witness for C2 at a concrete Snapshot. -/
theorem C2_witness :
    (dictGet? (hostvarsOf invWeb) "web-1").isSome = true :=
  C2_hosts_have_hostvars
    (rfl : get_inventory loads0 tfWeb initInventory = Except.ok invWeb)
    "webservers" (by decide) "web-1" (by decide)

/-- Witness for C3 at a concrete Snapshot: unknown host gives `{}`, known
host gives its hostvars entry. -/
theorem C3_witness :
    get_host loads0 tfWeb initInventory "missing-host" = Except.ok (Json.obj []) ∧
    get_host loads0 tfWeb initInventory "web-1" =
      Except.ok (Json.obj [("ansible_host", Json.str "1.2.3.4"),
        ("ansible_user", Json.str "ubuntu")]) :=
  ⟨(C3_get_host_total
      (rfl : get_inventory loads0 tfWeb initInventory = Except.ok invWeb)
      "missing-host").1 (by rfl),
   (C3_get_host_total
      (rfl : get_inventory loads0 tfWeb initInventory = Except.ok invWeb)
      "web-1").2 _ (by rfl)⟩

/-- A concrete Snapshot carrying the designated entry. -/
def entryAI : Json :=
  Json.obj [("value", Json.obj [("all", Json.obj [("children", Json.obj
    [("webservers", Json.obj [("hosts", Json.obj
      [("w1", Json.obj [("ansible_host", Json.str "9.9.9.9")])])])])])])]

/-- Witness for C4: two Snapshots sharing the designated entry but with
different fallback entries produce the same parse, and a Snapshot without
the entry runs the fallback. -/
theorem C4_witness :
    parse_ansible_inventory loads0 [("ansible_inventory", entryAI)] initInventory =
      parse_ansible_inventory loads0
        (("database_endpoint", Json.obj [("value", Json.str "db:1")]) ::
          [("ansible_inventory", entryAI)]) initInventory ∧
    parse_ansible_inventory loads0 tfWeb initInventory =
      parse_individual_outputs tfWeb initInventory :=
  ⟨C4_designated_entry_precedence.1 loads0 _ _ _ entryAI rfl rfl,
   C4_designated_entry_precedence.2 loads0 tfWeb initInventory rfl⟩

/-- Witness for C8 at a concrete Snapshot. -/
theorem C8_witness : get_inventory loads0 tfWeb invWeb = Except.ok invWeb :=
  C8_list_idempotent (rfl : get_inventory loads0 tfWeb initInventory = Except.ok invWeb)

theorem flatW_singleton (p : Plan) : flatW [p] = p.2.2 := by
  show p.2.2 ++ flatW [] = p.2.2
  rw [show flatW [] = [] from rfl, List.append_nil]

theorem flatW_append (a b : List Plan) : flatW (a ++ b) = flatW a ++ flatW b := by
  induction a with
  | nil => rfl
  | cons p rest ih =>
    show p.2.2 ++ flatW (rest ++ b) = (p.2.2 ++ flatW rest) ++ flatW b
    rw [ih, List.append_assoc]

theorem isEmpty_false_of_get {tf : Obj} {k : String} {v : Json}
    (h : dictGet? tf k = some v) : tf.isEmpty = false := by
  cases tf with
  | nil => cases h
  | cons p rest => rfl

theorem mem_synthNames {pre : String} {n : Nat} {k : String}
    (h : k ∈ synthNames pre n) : ∃ i, k = pre ++ toString (i+1) := by
  unfold synthNames at h
  obtain ⟨i, _, hi⟩ := List.mem_map.mp h
  exact ⟨i, hi.symm⟩

theorem inv_of_fb_plans {loads : String → Option Json} {tf inv' : Obj}
    {pw pa pd : List Plan} {av : Json}
    (hno : dictGet? tf "ansible_inventory" = none)
    (hne : tf.isEmpty = false)
    (hok : get_inventory loads tf initInventory = Except.ok inv')
    (hw : webPlan tf = Except.ok pw) (ha : appPlan tf = Except.ok pa)
    (hd : dbPlan tf = Except.ok pd) (hv : allVarsVal tf = Except.ok av) :
    inv' = allApply (topApply (updHostvars initInventory
      (dictSetFold [] (flatW (pw ++ pa ++ pd)))) (pw ++ pa ++ pd)) (some av) := by
  unfold get_inventory at hok
  rw [hne] at hok
  simp only [Bool.false_eq_true, if_false] at hok
  unfold parse_ansible_inventory at hok
  rw [hno] at hok
  rw [parse_plans_ok initInventory hw ha hd hv] at hok
  rw [applyPlans_eq metaWF_initInventory
    (fun p hp => ((fb_plans_keys hw ha hd).1 p hp).1)] at hok
  rw [except_map_ok, hostvarsOf_initInventory] at hok
  exact (Except.ok.inj hok).symm

/-- C5: the fallback web block: a non-empty address list of length `n`
produces group `webservers` with ordered hosts `web-1 … web-n`, each with an
`ansible_host` hostvars entry carrying the matching address; the group is
created iff the list is non-empty. -/
theorem C5_fallback_web {loads : String → Option Json} {tf inv' : Obj}
    {wo : Obj} {ips : List Json}
    (hno : dictGet? tf "ansible_inventory" = none)
    (hweb : dictGet? tf "web_instance_public_ips" = some (Json.obj wo))
    (hval : dictGet? wo "value" = some (Json.arr ips))
    (hok : get_inventory loads tf initInventory = Except.ok inv') :
    (ips = [] → dictGet? inv' "webservers" = none) ∧
    (ips ≠ [] →
      dictGet? inv' "webservers" = some (Json.obj
        [("hosts", Json.arr ((List.range ips.length).map
          (fun i => Json.str ("web-" ++ toString (i+1))))),
         ("vars", Json.obj [("ansible_user", Json.str "ubuntu"),
           ("server_type", Json.str "webserver")])]) ∧
      ∀ i, (hi : i < ips.length) →
        dictGet? (hostvarsOf inv') ("web-" ++ toString (i+1)) =
          some (Json.obj [("ansible_host", ips.get ⟨i, hi⟩),
            ("ansible_user", Json.str "ubuntu")])) := by
  have hne : tf.isEmpty = false := isEmpty_false_of_get hweb
  have hok' := hok
  unfold get_inventory at hok'
  rw [hne] at hok'
  simp only [Bool.false_eq_true, if_false] at hok'
  unfold parse_ansible_inventory at hok'
  rw [hno] at hok'
  obtain ⟨pw, pa, pd, av, hw, ha, hd, hv⟩ := parse_fb_extract hok'
  have hform := inv_of_fb_plans hno hne hok hw ha hd hv
  have hgv : getValue tf "web_instance_public_ips" (Json.arr []) =
      Except.ok (Json.arr ips) := by
    unfold getValue
    rw [hweb]
    show Except.ok (dictGetD wo "value" (Json.arr [])) = _
    rw [dictGetD, hval]
    rfl
  have hkeys := fb_plans_keys hw ha hd
  constructor
  · intro hnil
    subst hnil
    have hpw : pw = [] := by
      unfold webPlan at hw
      rw [hgv, ok_bind] at hw
      rw [show pyTruthy (Json.arr []) = false from rfl] at hw
      simp only [Bool.false_eq_true, if_false, pure_eq_ok] at hw
      exact (Except.ok.inj hw).symm
    subst hpw
    have hnotmem : ∀ p ∈ ([] : List Plan) ++ pa ++ pd, p.1 ≠ "webservers" := by
      intro p hp
      rcases List.mem_append.mp hp with hp' | hp'
      · rcases List.mem_append.mp hp' with hp'' | hp''
        · simp at hp''
        · rcases appPlan_shape ha with hsh | ⟨ips', hsh⟩
          · subst hsh; simp at hp''
          · subst hsh
            simp at hp''
            subst hp''
            exact (by decide : ("appservers" : String) ≠ "webservers")
      · rcases dbPlan_shape hd with hsh | ⟨ad, ed, pod, hsh⟩
        · subst hsh; simp at hp'
        · subst hsh
          simp at hp'
          subst hp'
          exact (by decide : ("databases" : String) ≠ "webservers")
    rw [hform, dictGet?_allApply_ne _ _ (by decide),
      dictGet?_topApply_not_mem _ hnotmem,
      dictGet?_updHostvars_ne _ _ (by decide),
      dictGet?_initInventory_ne (by decide)]
  · intro hnonnil
    have hpw : pw = [("webservers",
        groupEntry (synthNames "web-" ips.length)
          [("ansible_user", Json.str "ubuntu"), ("server_type", Json.str "webserver")],
        synthW "web-" ips)] := by
      unfold webPlan at hw
      rw [hgv, ok_bind] at hw
      rw [show pyTruthy (Json.arr ips) = !ips.isEmpty from rfl,
        show ips.isEmpty = false from by simp [List.isEmpty_iff, hnonnil]] at hw
      simp only [Bool.not_false, if_true] at hw
      rw [show pyIter (Json.arr ips) = Except.ok ips from rfl, ok_bind, pure_eq_ok] at hw
      exact (Except.ok.inj hw).symm
    subst hpw
    constructor
    · rw [hform, dictGet?_allApply_ne _ _ (by decide)]
      have hmem : (("webservers",
          groupEntry (synthNames "web-" ips.length)
            [("ansible_user", Json.str "ubuntu"), ("server_type", Json.str "webserver")],
          synthW "web-" ips) : Plan) ∈
          [("webservers",
            groupEntry (synthNames "web-" ips.length)
              [("ansible_user", Json.str "ubuntu"), ("server_type", Json.str "webserver")],
            synthW "web-" ips)] ++ pa ++ pd := by
        exact List.mem_append.mpr (Or.inl (List.mem_append.mpr (Or.inl (by simp))))
      rw [dictGet?_topApply_of_mem _ hkeys.2 hmem]
      rw [show (("webservers",
          groupEntry (synthNames "web-" ips.length)
            [("ansible_user", Json.str "ubuntu"), ("server_type", Json.str "webserver")],
          synthW "web-" ips) : Plan).2.1 =
          groupEntry (synthNames "web-" ips.length)
            [("ansible_user", Json.str "ubuntu"), ("server_type", Json.str "webserver")] from rfl]
      rw [groupEntry_synth]
    · intro i hi
      rw [hform, hostvarsOf_planform _ _ (fun p hp => (hkeys.1 p hp).1)]
      rw [show flatW ([("webservers",
          groupEntry (synthNames "web-" ips.length)
            [("ansible_user", Json.str "ubuntu"), ("server_type", Json.str "webserver")],
          synthW "web-" ips)] ++ pa ++ pd) =
        synthW "web-" ips ++ flatW (pa ++ pd) from by
          rw [List.append_assoc, flatW_append, flatW_singleton]]
      rw [dictSetFold_append]
      have hnot : "web-" ++ toString (i+1) ∉ dictKeys (flatW (pa ++ pd)) := by
        intro hmem
        rw [flatW_append, dictKeys_append] at hmem
        rcases List.mem_append.mp hmem with hm | hm
        · rcases appPlan_shape ha with hsh | ⟨ips', hsh⟩
          · subst hsh; simp [flatW] at hm
          · subst hsh
            rw [show flatW [("appservers",
                groupEntry (synthNames "app-" ips'.length)
                  [("ansible_user", Json.str "ubuntu"), ("server_type", Json.str "appserver")],
                synthW "app-" ips')] = synthW "app-" ips' ++ [] from rfl,
              List.append_nil, dictKeys_synthW] at hm
            obtain ⟨j, hj⟩ := mem_synthNames hm
            exact web_ne_app (toString (i+1)) (toString (j+1)) hj
        · rcases dbPlan_shape hd with hsh | ⟨ad, ed, pod, hsh⟩
          · subst hsh; simp [flatW] at hm
          · subst hsh
            simp [flatW, dictKeys] at hm
            exact web_ne_database (toString (i+1)) hm
      rw [dictGet?_dictSetFold_not_mem _ hnot]
      have hnd : (dictKeys (synthW "web-" ips)).Nodup := by
        rw [dictKeys_synthW]
        exact nodup_synthNames _ _
      exact dictGet?_fold_of_mem_nodup _ hnd (mem_synthW hi)

/-- A concrete fallback Snapshot with two web addresses (the claim's own
example). -/
def tfWeb2 : Obj :=
  [("web_instance_public_ips", Json.obj [("value",
    Json.arr [Json.str "1.2.3.4", Json.str "5.6.7.8"])])]

/-- The Inventory produced from `tfWeb2`. -/
def invWeb2 : Obj :=
  [("_meta", Json.obj [("hostvars", Json.obj
      [("web-1", Json.obj [("ansible_host", Json.str "1.2.3.4"),
        ("ansible_user", Json.str "ubuntu")]),
       ("web-2", Json.obj [("ansible_host", Json.str "5.6.7.8"),
        ("ansible_user", Json.str "ubuntu")])])]),
   ("webservers", Json.obj [("hosts", Json.arr [Json.str "web-1", Json.str "web-2"]),
      ("vars", Json.obj [("ansible_user", Json.str "ubuntu"),
        ("server_type", Json.str "webserver")])]),
   ("all", Json.obj [("vars", Json.obj [("environment", Json.str "unknown"),
      ("project_name", Json.str "iac-solution"),
      ("aws_region", Json.str "us-west-2")])])]

/-- Witness for C5 at the claim's example Snapshot. -/
theorem C5_witness :
    dictGet? invWeb2 "webservers" = some (Json.obj
      [("hosts", Json.arr [Json.str "web-1", Json.str "web-2"]),
       ("vars", Json.obj [("ansible_user", Json.str "ubuntu"),
         ("server_type", Json.str "webserver")])]) ∧
    dictGet? (hostvarsOf invWeb2) "web-1" = some (Json.obj
      [("ansible_host", Json.str "1.2.3.4"),
       ("ansible_user", Json.str "ubuntu")]) := by
  have h := C5_fallback_web
    (rfl : dictGet? tfWeb2 "ansible_inventory" = none)
    (rfl : dictGet? tfWeb2 "web_instance_public_ips" =
      some (Json.obj [("value", Json.arr [Json.str "1.2.3.4", Json.str "5.6.7.8"])]))
    (rfl : dictGet? [("value", Json.arr [Json.str "1.2.3.4", Json.str "5.6.7.8"])] "value" =
      some (Json.arr [Json.str "1.2.3.4", Json.str "5.6.7.8"]))
    (rfl : get_inventory loads0 tfWeb2 initInventory = Except.ok invWeb2)
  have h2 := h.2 (by simp)
  exact ⟨h2.1, h2.2 0 (by decide)⟩

/-- C6: the fallback database block: a non-empty endpoint string creates
exactly one host `database` whose address is the part before the first
colon, with `db_engine`/`db_port` pulled from their entries (defaults
`postgres`/`5432` when absent); group `databases` is created iff a (truthy)
endpoint is present. -/
theorem C6_fallback_database {loads : String → Option Json} {tf inv' : Obj}
    (hno : dictGet? tf "ansible_inventory" = none)
    (hok : get_inventory loads tf initInventory = Except.ok inv') :
    (∀ (dbo : Obj) (ep : String),
      dictGet? tf "database_endpoint" = some (Json.obj dbo) →
      dictGet? dbo "value" = some (Json.str ep) → ep ≠ "" →
      dictGet? inv' "databases" = some (Json.obj
        [("hosts", Json.arr [Json.str "database"]),
         ("vars", Json.obj [("server_type", Json.str "database")])]) ∧
      ∃ engine port,
        getValue tf "database_engine" (Json.str "postgres") = Except.ok engine ∧
        getValue tf "database_port" (Json.num 5432) = Except.ok port ∧
        dictGet? (hostvarsOf inv') "database" = some (Json.obj
          [("ansible_host", Json.str (splitHead ep)),
           ("db_engine", engine), ("db_port", port)]) ∧
        (dictGet? tf "database_engine" = none → engine = Json.str "postgres") ∧
        (dictGet? tf "database_port" = none → port = Json.num 5432)) ∧
    (dictGet? tf "database_endpoint" = none →
      dictGet? inv' "databases" = none) := by
  constructor
  · intro dbo ep hdb hvv hepne
    have hne : tf.isEmpty = false := isEmpty_false_of_get hdb
    have hok' := hok
    unfold get_inventory at hok'
    rw [hne] at hok'
    simp only [Bool.false_eq_true, if_false] at hok'
    unfold parse_ansible_inventory at hok'
    rw [hno] at hok'
    obtain ⟨pw, pa, pd, av, hw, ha, hd, hv⟩ := parse_fb_extract hok'
    have hform := inv_of_fb_plans hno hne hok hw ha hd hv
    have hkeys := fb_plans_keys hw ha hd
    have hgd : getValue tf "database_endpoint" Json.null =
        Except.ok (Json.str ep) := by
      unfold getValue
      rw [hdb]
      show Except.ok (dictGetD dbo "value" Json.null) = _
      rw [dictGetD, hvv]
      rfl
    have hd' := hd
    unfold dbPlan at hd'
    rw [hgd, ok_bind] at hd'
    rw [show pyTruthy (Json.str ep) = !ep.isEmpty from rfl,
      show ep.isEmpty = false from by
        cases hc : ep.isEmpty
        · rfl
        · exact absurd ((String.isEmpty_iff ep).mp hc) hepne] at hd'
    simp only [Bool.not_false, if_true] at hd'
    rw [show pySplitHead (Json.str ep) = Except.ok (splitHead ep) from rfl,
      ok_bind] at hd'
    cases hen : getValue tf "database_engine" (Json.str "postgres") with
    | error e => cases e; rw [hen, error_bind] at hd'; cases hd'
    | ok engine =>
    rw [hen, ok_bind] at hd'
    cases hpo : getValue tf "database_port" (Json.num 5432) with
    | error e => cases e; rw [hpo, error_bind] at hd'; cases hd'
    | ok port =>
    rw [hpo, ok_bind, pure_eq_ok] at hd'
    have hpd : pd = [("databases", groupEntry ["database"] databasesVars,
        [("database", Json.obj [("ansible_host", Json.str (splitHead ep)),
          ("db_engine", engine), ("db_port", port)])])] := (Except.ok.inj hd').symm
    subst hpd
    constructor
    · rw [hform, dictGet?_allApply_ne _ _ (by decide)]
      have hmem : (("databases", groupEntry ["database"] databasesVars,
          [("database", Json.obj [("ansible_host", Json.str (splitHead ep)),
            ("db_engine", engine), ("db_port", port)])]) : Plan) ∈
          pw ++ pa ++ [("databases", groupEntry ["database"] databasesVars,
            [("database", Json.obj [("ansible_host", Json.str (splitHead ep)),
              ("db_engine", engine), ("db_port", port)])])] :=
        List.mem_append.mpr (Or.inr (by simp))
      rw [dictGet?_topApply_of_mem _ hkeys.2 hmem]
      rfl
    · refine ⟨engine, port, rfl, rfl, ?_, ?_, ?_⟩
      · rw [hform, hostvarsOf_planform _ _ (fun p hp => (hkeys.1 p hp).1)]
        rw [flatW_append, dictSetFold_append, flatW_singleton]
        show dictGet? (dictSetFold (dictSetFold [] (flatW (pw ++ pa)))
          [("database", Json.obj [("ansible_host", Json.str (splitHead ep)),
            ("db_engine", engine), ("db_port", port)])]) "database" = _
        rw [dictSetFold_cons, dictSetFold_nil, dictGet?_dictSet_self]
      · intro hengnone
        unfold getValue at hen
        rw [hengnone] at hen
        exact (Except.ok.inj hen).symm
      · intro hponone
        unfold getValue at hpo
        rw [hponone] at hpo
        exact (Except.ok.inj hpo).symm
  · intro hdbnone
    by_cases hemp : tf.isEmpty = true
    · unfold get_inventory at hok
      rw [if_pos hemp] at hok
      have : inv' = emptyInventory := (Except.ok.inj hok).symm
      subst this
      exact dictGet?_emptyInventory_ne (by decide) (by decide)
    · have hne : tf.isEmpty = false := by
        cases hc : tf.isEmpty
        · rfl
        · exact absurd hc hemp
      have hok' := hok
      unfold get_inventory at hok'
      rw [hne] at hok'
      simp only [Bool.false_eq_true, if_false] at hok'
      unfold parse_ansible_inventory at hok'
      rw [hno] at hok'
      obtain ⟨pw, pa, pd, av, hw, ha, hd, hv⟩ := parse_fb_extract hok'
      have hform := inv_of_fb_plans hno hne hok hw ha hd hv
      have hpd : pd = [] := by
        unfold dbPlan at hd
        rw [show getValue tf "database_endpoint" Json.null = Except.ok Json.null from by
          unfold getValue
          rw [hdbnone], ok_bind] at hd
        rw [show pyTruthy Json.null = false from rfl] at hd
        simp only [Bool.false_eq_true, if_false, pure_eq_ok] at hd
        exact (Except.ok.inj hd).symm
      subst hpd
      have hnotmem : ∀ p ∈ pw ++ pa ++ ([] : List Plan), p.1 ≠ "databases" := by
        intro p hp
        rcases List.mem_append.mp hp with hp' | hp'
        · rcases List.mem_append.mp hp' with hp'' | hp''
          · rcases webPlan_shape hw with hsh | ⟨ips', hsh⟩
            · subst hsh; simp at hp''
            · subst hsh
              simp at hp''
              subst hp''
              exact (by decide : ("webservers" : String) ≠ "databases")
          · rcases appPlan_shape ha with hsh | ⟨ips', hsh⟩
            · subst hsh; simp at hp''
            · subst hsh
              simp at hp''
              subst hp''
              exact (by decide : ("appservers" : String) ≠ "databases")
        · simp at hp'
      rw [hform, dictGet?_allApply_ne _ _ (by decide),
        dictGet?_topApply_not_mem _ hnotmem,
        dictGet?_updHostvars_ne _ _ (by decide),
        dictGet?_initInventory_ne (by decide)]

/-- A concrete fallback Snapshot with only a database endpoint (the claim's
own example, engine and port entries absent). -/
def tfDb : Obj :=
  [("database_endpoint", Json.obj [("value", Json.str "db.example.com:5432")])]

/-- The Inventory produced from `tfDb`. -/
def invDb : Obj :=
  [("_meta", Json.obj [("hostvars", Json.obj
      [("database", Json.obj [("ansible_host", Json.str "db.example.com"),
        ("db_engine", Json.str "postgres"), ("db_port", Json.num 5432)])])]),
   ("databases", Json.obj [("hosts", Json.arr [Json.str "database"]),
      ("vars", Json.obj [("server_type", Json.str "database")])]),
   ("all", Json.obj [("vars", Json.obj [("environment", Json.str "unknown"),
      ("project_name", Json.str "iac-solution"),
      ("aws_region", Json.str "us-west-2")])])]

/-- Witness for C6 at the claim's example Snapshot: both defaults kick in. -/
theorem C6_witness :
    dictGet? invDb "databases" = some (Json.obj
      [("hosts", Json.arr [Json.str "database"]),
       ("vars", Json.obj [("server_type", Json.str "database")])]) ∧
    dictGet? (hostvarsOf invDb) "database" = some (Json.obj
      [("ansible_host", Json.str "db.example.com"),
       ("db_engine", Json.str "postgres"),
       ("db_port", Json.num 5432)]) := by
  have h := C6_fallback_database
    (rfl : dictGet? tfDb "ansible_inventory" = none)
    (rfl : get_inventory loads0 tfDb initInventory = Except.ok invDb)
  have h1 := h.1 [("value", Json.str "db.example.com:5432")] "db.example.com:5432"
    rfl rfl (by decide)
  obtain ⟨hg, engine, port, hen, hpo, hhv, -, -⟩ := h1
  have he : Json.str "postgres" = engine := Except.ok.inj hen
  have hp : Json.num 5432 = port := Except.ok.inj hpo
  subst he
  subst hp
  exact ⟨hg, hhv⟩

theorem allApply_some (d : Obj) (v : Json) :
    allApply d (some v) = dictSet d "all" v := rfl

/-- A Snapshot whose designated entry decodes to an `all` entry carrying a
`vars` mapping but no `children` mapping. -/
def tf7 : Obj :=
  [("ansible_inventory", Json.obj [("value", Json.obj [("all",
    Json.obj [("vars", Json.obj [("x", Json.num 1)])])])])]

/-- Counterexample to C7 as stated: the Snapshot `tf7` contains the
designated entry, its decoded value's top-level `all` carries a `vars`
mapping, yet the run succeeds with the initial inventory, which has no
`all` key at all (the copy at line 98 sits inside the `children` branch of
line 51, so it never runs when `children` is absent). -/
theorem C7_counterexample :
    dictGet? tf7 "ansible_inventory" = some (Json.obj [("value", Json.obj
      [("all", Json.obj [("vars", Json.obj [("x", Json.num 1)])])])]) ∧
    pyContains (Json.obj [("vars", Json.obj [("x", Json.num 1)])]) "vars" =
      Except.ok true ∧
    get_inventory loads0 tf7 initInventory = Except.ok initInventory ∧
    dictGet? initInventory "all" = none :=
  ⟨rfl, rfl, rfl, rfl⟩

/-- C7 (amended): the preferred path copies the decoded top-level
`all.vars` mapping into the produced Inventory's `all` entry only when the
decoded `all` entry also carries a `children` mapping (the guard at
line 51); under that extra condition, and when the run succeeds, the copy
does happen verbatim. -/
theorem C7_pref_all_vars {loads : String → Option Json} {tf inv' : Obj}
    {entry rawData idata allv vv : Json}
    (hen : dictGet? tf "ansible_inventory" = some entry)
    (hraw : pySubscript entry "value" = Except.ok rawData)
    (hdec : pyDecode loads rawData = Except.ok idata)
    (hb1 : pyContains idata "all" = Except.ok true)
    (hallv : pySubscript idata "all" = Except.ok allv)
    (hb2 : pyContains allv "children" = Except.ok true)
    (hb3 : pyContains allv "vars" = Except.ok true)
    (hvv : pySubscript allv "vars" = Except.ok vv)
    (hok : get_inventory loads tf initInventory = Except.ok inv') :
    dictGet? inv' "all" = some (Json.obj [("vars", vv)]) := by
  have hne : tf.isEmpty = false := isEmpty_false_of_get hen
  have hok' := hok
  unfold get_inventory at hok'
  rw [hne] at hok'
  simp only [Bool.false_eq_true, if_false] at hok'
  obtain ⟨rawData', idata', b1', hraw', hdec', hb1', hrest⟩ :=
    parse_pref_extract hen hok'
  cases Except.ok.inj (hraw.symm.trans hraw')
  cases Except.ok.inj (hdec.symm.trans hdec')
  cases Except.ok.inj (hb1.symm.trans hb1')
  rcases hrest with ⟨hF, -⟩ | ⟨-, allv', b2', hallv', hb2', hrest2⟩
  · cases hF
  cases Except.ok.inj (hallv.symm.trans hallv')
  cases Except.ok.inj (hb2.symm.trans hb2')
  rcases hrest2 with ⟨hF, -⟩ | ⟨-, children, o1, o2, o3, av, hch, h1, h2, h3, hav⟩
  · cases hF
  have hform := parse_pref_plans_ok initInventory hen hraw hdec hb1 hallv hb2
    hch h1 h2 h3 hav
  rw [hform, applyPlans_eq metaWF_initInventory
    (fun p hp => ((pref_plans_keys h1 h2 h3).1 p hp).1), except_map_ok] at hok'
  unfold prefAllVal at hav
  rw [hb3, ok_bind, if_pos rfl, hvv, ok_bind, pure_eq_ok] at hav
  cases Except.ok.inj hav
  cases Except.ok.inj hok'
  rw [allApply_some, dictGet?_dictSet_self]

/-- An `all` entry with both `children` (empty) and a `vars` mapping. -/
def allv7w : Json :=
  Json.obj [("children", Json.obj []), ("vars", Json.obj [("x", Json.num 1)])]

/-- A decoded designated value built around `allv7w`. -/
def data7w : Json :=
  Json.obj [("all", allv7w)]

/-- A Snapshot whose designated entry has `all` with both `children` (empty)
and a `vars` mapping. -/
def tf7w : Obj :=
  [("ansible_inventory", Json.obj [("value", data7w)])]

/-- The Inventory produced from `tf7w`. -/
def inv7w : Obj :=
  [("_meta", Json.obj [("hostvars", Json.obj [])]),
   ("all", Json.obj [("vars", Json.obj [("x", Json.num 1)])])]

/-- Witness for the amended C7. -/
theorem C7_witness :
    dictGet? inv7w "all" = some (Json.obj [("vars", Json.obj [("x", Json.num 1)])]) :=
  C7_pref_all_vars
    (rfl : dictGet? tf7w "ansible_inventory" = some (Json.obj [("value", data7w)]))
    (rfl : pySubscript (Json.obj [("value", data7w)]) "value" = Except.ok data7w)
    (rfl : pyDecode loads0 data7w = Except.ok data7w)
    (rfl : pyContains data7w "all" = Except.ok true)
    (rfl : pySubscript data7w "all" = Except.ok allv7w)
    (rfl : pyContains allv7w "children" = Except.ok true)
    (rfl : pyContains allv7w "vars" = Except.ok true)
    (rfl : pySubscript allv7w "vars" = Except.ok (Json.obj [("x", Json.num 1)]))
    (rfl : get_inventory loads0 tf7w initInventory = Except.ok inv7w)

/-- A non-empty Snapshot without the designated entry whose
`web_instance_public_ips.value` is a number. -/
def tf9 : Obj :=
  [("web_instance_public_ips", Json.obj [("value", Json.num 5)])]

/-- Counterexample to C9 as stated: on `tf9` (non-empty, no designated
entry) the fallback raises before ever reaching the `all.vars` write at
lines 162-169 (`len(web_ips)` at line 114 is applied to a truthy
non-sequence), so no Inventory with the three `all.vars` entries is
produced at all. -/
theorem C9_counterexample :
    dictGet? tf9 "ansible_inventory" = none ∧
    tf9.isEmpty = false ∧
    get_inventory loads0 tf9 initInventory = Except.error () :=
  ⟨rfl, rfl, rfl⟩

/-- C9 (amended): on every successful fallback run over a non-empty
Snapshot without the designated entry, the produced Inventory's `all.vars`
holds exactly the three entries `environment`, `project_name` and
`aws_region`, with `environment`/`aws_region` drawn from
`infrastructure_info.value` and defaulting to `unknown`/`us-west-2` when
`infrastructure_info` is absent, and `project_name` the constant
`iac-solution`. -/
theorem C9_fallback_all_vars {loads : String → Option Json} {tf inv' : Obj}
    (hno : dictGet? tf "ansible_inventory" = none)
    (hne : tf.isEmpty = false)
    (hok : get_inventory loads tf initInventory = Except.ok inv') :
    ∃ env region,
      infraGet tf "environment" "unknown" = Except.ok env ∧
      infraGet tf "region" "us-west-2" = Except.ok region ∧
      dictGet? inv' "all" = some (Json.obj [("vars", Json.obj
        [("environment", env), ("project_name", Json.str "iac-solution"),
         ("aws_region", region)])]) ∧
      (dictGet? tf "infrastructure_info" = none →
        env = Json.str "unknown" ∧ region = Json.str "us-west-2") := by
  have hok' := hok
  unfold get_inventory at hok'
  rw [hne] at hok'
  simp only [Bool.false_eq_true, if_false] at hok'
  unfold parse_ansible_inventory at hok'
  rw [hno] at hok'
  obtain ⟨pw, pa, pd, av, hw, ha, hd, hv⟩ := parse_fb_extract hok'
  have hform := inv_of_fb_plans hno hne hok hw ha hd hv
  unfold allVarsVal at hv
  cases henv : infraGet tf "environment" "unknown" with
  | error e => cases e; rw [henv, error_bind] at hv; cases hv
  | ok env =>
  rw [henv, ok_bind] at hv
  cases hreg : infraGet tf "region" "us-west-2" with
  | error e => cases e; rw [hreg, error_bind] at hv; cases hv
  | ok region =>
  rw [hreg, ok_bind, pure_eq_ok] at hv
  cases Except.ok.inj hv
  refine ⟨env, region, rfl, rfl, ?_, ?_⟩
  · rw [hform, allApply_some, dictGet?_dictSet_self]
  · intro habs
    constructor
    · unfold infraGet at henv
      rw [habs] at henv
      exact (Except.ok.inj henv).symm
    · unfold infraGet at hreg
      rw [habs] at hreg
      exact (Except.ok.inj hreg).symm

/-- Witness for the amended C9 at the Snapshot `tfDb`, where
`infrastructure_info` is absent and both defaults apply. -/
theorem C9_witness :
    dictGet? invDb "all" = some (Json.obj [("vars", Json.obj
      [("environment", Json.str "unknown"),
       ("project_name", Json.str "iac-solution"),
       ("aws_region", Json.str "us-west-2")])]) := by
  have h := C9_fallback_all_vars
    (rfl : dictGet? tfDb "ansible_inventory" = none)
    (rfl : tfDb.isEmpty = false)
    (rfl : get_inventory loads0 tfDb initInventory = Except.ok invDb)
  obtain ⟨env, region, henv, hreg, hall, hdef⟩ := h
  obtain ⟨he, hr⟩ := hdef rfl
  subst he
  subst hr
  exact hall

/-- A non-empty Snapshot with the designated entry whose decoded value has
a top-level `all` that is not a dict. -/
def tf10 : Obj :=
  [("ansible_inventory", Json.obj [("value", Json.obj [("all", Json.num 5)])])]

/-- Counterexample to C10 as stated: `tf10` contains the designated entry
and its decoded value has no `all`-with-`children` mapping, yet
get_inventory does not return `{"_meta": {"hostvars": {}}}` — it raises
(the membership test `'children' in inventory_data['all']` at line 51 is
applied to a number). -/
theorem C10_counterexample :
    dictGet? tf10 "ansible_inventory" =
      some (Json.obj [("value", Json.obj [("all", Json.num 5)])]) ∧
    get_inventory loads0 tf10 initInventory = Except.error () :=
  ⟨rfl, rfl⟩

/-- C10 (amended): when the designated entry is present, its value decodes
to a dict, and the guard at line 51 evaluates cleanly to false — either no
top-level `all` key, or an `all` value whose membership test for
`children` yields false — get_inventory returns exactly
`{"_meta": {"hostvars": {}}}` (the untouched initial inventory: no groups,
and no `all` key, unlike the degraded empty-Snapshot document), and the
fallback path is not invoked. -/
theorem C10_pref_guard_false_initial {loads : String → Option Json}
    {tf : Obj} {entry rawData idata : Json}
    (hen : dictGet? tf "ansible_inventory" = some entry)
    (hraw : pySubscript entry "value" = Except.ok rawData)
    (hdec : pyDecode loads rawData = Except.ok idata)
    (hcond : pyContains idata "all" = Except.ok false ∨
      ∃ allv, pyContains idata "all" = Except.ok true ∧
        pySubscript idata "all" = Except.ok allv ∧
        pyContains allv "children" = Except.ok false) :
    get_inventory loads tf initInventory =
      Except.ok [("_meta", Json.obj [("hostvars", Json.obj [])])] := by
  have hne : tf.isEmpty = false := isEmpty_false_of_get hen
  unfold get_inventory
  rw [hne]
  simp only [Bool.false_eq_true, if_false]
  rcases hcond with hb1 | ⟨allv, hb1, hallv, hb2⟩
  · exact parse_pref_noop_b1 initInventory hen hraw hdec hb1
  · exact parse_pref_noop_b2 initInventory hen hraw hdec hb1 hallv hb2

/-- A Snapshot whose designated entry decodes to a dict without `all`. -/
def tf10w : Obj :=
  [("ansible_inventory", Json.obj [("value", Json.obj [("foo", Json.num 1)])])]

/-- Witness for the amended C10. -/
theorem C10_witness :
    get_inventory loads0 tf10w initInventory =
      Except.ok [("_meta", Json.obj [("hostvars", Json.obj [])])] :=
  C10_pref_guard_false_initial
    (rfl : dictGet? tf10w "ansible_inventory" =
      some (Json.obj [("value", Json.obj [("foo", Json.num 1)])]))
    (rfl : pySubscript (Json.obj [("value", Json.obj [("foo", Json.num 1)])]) "value" =
      Except.ok (Json.obj [("foo", Json.num 1)]))
    (rfl : pyDecode loads0 (Json.obj [("foo", Json.num 1)]) =
      Except.ok (Json.obj [("foo", Json.num 1)]))
    (Or.inl (rfl : pyContains (Json.obj [("foo", Json.num 1)]) "all" =
      Except.ok false))
